import Mathlib

/-
Verification of the k-point mesh machinery in tetrados (src/tetrados/kpoints.py).

The embedding models numpy float arrays as lists of rational triples and the
numpy operations by their exact mathematical counterparts:
  * np.round (half-to-even rounding) is `rnd` / `roundDp`;
  * np.floor on rationals is `qfloor` (proved equal to Int.floor);
  * np.linalg.norm comparisons `norm > c` are expressed as `normSq > c ^ 2`,
    which is equivalent for nonnegative `c` since squaring is monotone;
  * np.unique is `uniqueSorted` (sorted distinct values), with the
    return_inverse / return_counts outputs computed alongside;
  * np.argsort is `argsort` (stable sort of positions by value);
  * python exceptions (assert / raise / numpy errors) are Except / Option.

Rat.add, Rat.mul, Rat.sub and Rat.inv are irreducible in Batteries, which
blocks the elaborator when evaluating concrete inputs; they are restored to
semireducible locally so that `decide` can evaluate the embedded functions.
-/

attribute [local semireducible] Rat.mul Rat.inv Rat.add Rat.sub Rat.ofScientific

namespace Tetrados

/-- Floor of a rational number, written so that the kernel can evaluate it.
It agrees with Int.floor, see qfloor_eq. -/
def qfloor (q : ℚ) : ℤ := q.num / q.den

/-- Round half to even to the nearest integer: the rounding mode of numpy's
np.round with decimals = 0. -/
def rnd (q : ℚ) : ℤ :=
  if q - qfloor q < 1/2 then qfloor q
  else if 1/2 < q - qfloor q then qfloor q + 1
  else if 2 ∣ qfloor q then qfloor q else qfloor q + 1

/-- Fuel-based floor of the base-10 logarithm of a natural number
(number of decimal digits minus one); the first argument is fuel. -/
def natLog10Aux : ℕ → ℕ → ℕ
  | 0, _ => 0
  | fuel+1, n => if n < 10 then 0 else natLog10Aux fuel (n / 10) + 1

/-- Models round_dp = int(np.log10(1 / tol)) from kpoints_to_first_bz for a
rational tolerance 0 < tol ≤ 1: the floor of log10(1 / tol), computed as the
number of decimal digits of floor(1 / tol) minus one (exact for tol = 10 ^ -k). -/
def dpOf (tol : ℚ) : ℕ := natLog10Aux (qfloor (1/tol)).toNat (qfloor (1/tol)).toNat

/-- np.round(q, dp): scale by 10 ^ dp, round half to even, scale back. -/
def roundDp (dp : ℕ) (q : ℚ) : ℚ := (rnd (q * 10^dp) : ℚ) / 10^dp

/-- Modelled from the spec: the module-level fractional tolerance constant ktol
imported from tetrados.settings, a file not included in this snapshot. The
spec describes it only as a small process-wide tolerance constant; the
customary value 1e-5 is used here, so boundary detection rounds to 5 decimals. -/
def ktol : ℚ := 1/100000

/-- A fractional k-point: one row of an (n, 3) numpy coordinate array. -/
abbrev Pt : Type := ℚ × ℚ × ℚ

/-- Squared euclidean norm of a k-point (np.linalg.norm(p) ^ 2). -/
def normSq (p : Pt) : ℚ := p.1^2 + p.2.1^2 + p.2.2^2

/-- Squared euclidean distance between two k-points. -/
def sqDist (p q : Pt) : ℚ := (p.1 - q.1)^2 + (p.2.1 - q.2.1)^2 + (p.2.2 - q.2.2)^2

/-- The action of kpoints_to_first_bz on one coordinate:
kp = k - np.round(k), then krounded = np.round(kp, round_dp), and a value whose
rounding is exactly the disallowed boundary sign is reassigned to the allowed
sign (lines 31-41 of kpoints.py). -/
def foldCoord (tol : ℚ) (negative_zone_boundary : Bool) (k : ℚ) : ℚ :=
  let kp := k - (rnd k : ℚ)
  let krounded := roundDp (dpOf tol) kp
  if negative_zone_boundary then (if krounded = 1/2 then -(1/2) else kp)
  else (if krounded = -(1/2) then 1/2 else kp)

/-- kpoints_to_first_bz applied to one k-point (the numpy code acts
elementwise on every coordinate of the array). -/
def foldPt (tol : ℚ) (negative_zone_boundary : Bool) (p : Pt) : Pt :=
  (foldCoord tol negative_zone_boundary p.1,
   foldCoord tol negative_zone_boundary p.2.1,
   foldCoord tol negative_zone_boundary p.2.2)

/-- kpoints_to_first_bz (kpoints.py lines 14-41). Defaults in the source are
tol = ktol and negative_zone_boundary = True; callers below pass them
explicitly. -/
def kpoints_to_first_bz (kpoints : List Pt) (tol : ℚ)
    (negative_zone_boundary : Bool) : List Pt :=
  kpoints.map (foldPt tol negative_zone_boundary)

/-- np.unique: the sorted list of distinct values of a list. -/
def uniqueSorted {α : Type} [LinearOrder α] [DecidableEq α] (l : List α) : List α :=
  List.insertionSort (· ≤ ·) l.dedup

/-- np.diff of a sorted list: consecutive differences u[i+1] - u[i]. -/
def gaps (u : List ℚ) : List ℚ := List.zipWith (fun b a => b - a) u.tail u

/-- get_mesh_from_kpoint_diff (kpoints.py lines 114-147). np.min of an empty
selection raises, hence the Option. The is_shifted test
min(np.linalg.norm(kpoints, axis=1)) > 1e-6 is expressed on squared norms
(norm > 1e-6 iff normSq > 1e-12). The tol parameter is unused in the source:
the gap filters use the module constant ktol (for axis a the filter is even
applied twice, as in lines 131-132). -/
def get_mesh_from_kpoint_diff (kpoints : List Pt) (tol : ℚ) :
    Option ((ℚ × ℚ × ℚ) × Bool) :=
  match (kpoints.map normSq).min? with
  | none => none
  | some m =>
    let is_shifted : Bool := decide ((1/10^12 : ℚ) < m)
    let unique_a := uniqueSorted (kpoints.map (fun p => p.1))
    let unique_b := uniqueSorted (kpoints.map (fun p => p.2.1))
    let unique_c := uniqueSorted (kpoints.map (fun p => p.2.2))
    let na? : Option ℚ :=
      if unique_a.length = 1 then some 1
      else
        let diff := (gaps unique_a).filter (fun g => ktol < g)
        ((diff.filter (fun g => ktol < g)).min?).map (fun x => 1 / x)
    let nb? : Option ℚ :=
      if unique_b.length = 1 then some 1
      else ((gaps unique_b).filter (fun g => ktol < g)).min?.map (fun x => 1 / x)
    let nc? : Option ℚ :=
      if unique_c.length = 1 then some 1
      else ((gaps unique_c).filter (fun g => ktol < g)).min?.map (fun x => 1 / x)
    match na?, nb?, nc? with
    | some na, some nb, some nc => some ((na, nb, nc), is_shifted)
    | _, _, _ => none

/-- get_kpoint_indices (kpoints.py lines 150-159). min_kpoint is
-np.floor(mesh / 2) (exact on integer meshes, so .round() is the identity),
addresses = np.round((kpoints + shift / (mesh * 2)) * mesh), and the linear
index is row-major a * (nb * nc) + b * nc + c. -/
def idxPt (mesh : ℤ × ℤ × ℤ) (is_shifted : Bool) (p : Pt) : ℤ :=
  let s : ℚ := if is_shifted then 1 else 0
  let min1 : ℤ := -qfloor ((mesh.1 : ℚ) / 2)
  let min2 : ℤ := -qfloor ((mesh.2.1 : ℚ) / 2)
  let min3 : ℤ := -qfloor ((mesh.2.2 : ℚ) / 2)
  let a := rnd ((p.1 + s / ((mesh.1 : ℚ) * 2)) * (mesh.1 : ℚ)) - min1
  let b := rnd ((p.2.1 + s / ((mesh.2.1 : ℚ) * 2)) * (mesh.2.1 : ℚ)) - min2
  let c := rnd ((p.2.2 + s / ((mesh.2.2 : ℚ) * 2)) * (mesh.2.2 : ℚ)) - min3
  a * (mesh.2.1 * mesh.2.2) + b * mesh.2.2 + c

def get_kpoint_indices (kpoints : List Pt) (mesh : ℤ × ℤ × ℤ)
    (is_shifted : Bool) : List ℤ :=
  kpoints.map (idxPt mesh is_shifted)

/-- np.argsort on integer values: the list of positions sorted by value.
Ties are broken by position (a stable argsort; the concrete inputs this file
evaluates argsort on have either no ties or two equal values, where every tie
order, including numpy's, gives the same positions). -/
def argsort (vals : List ℤ) : List ℕ :=
  List.insertionSort
    (fun i j => vals.getD i 0 < vals.getD j 0 ∨ (vals.getD i 0 = vals.getD j 0 ∧ i ≤ j))
    (List.range vals.length)

/-- Round each entry of an inferred float mesh to an integer,
np.round(mesh, 0).astype(int). -/
def roundMesh (m : ℚ × ℚ × ℚ) : ℤ × ℤ × ℤ := (rnd m.1, rnd m.2.1, rnd m.2.2)

/-- get_kpoint_mapping (kpoints.py lines 162-187).
Line 163 of the source compares len(kpoints_sort) with itself, so the first
guard can never fail; it is embedded verbatim. np.arange(n)[np.argsort(x)]
equals np.argsort(x), so sort_true_idx is argsort indices_true. Out-of-range
fancy indexing raises IndexError in numpy; the distance verification compares
squared distances against 1e-5 ^ 2 = 1e-10. -/
def get_kpoint_mapping (kpoints_true kpoints_sort : List Pt) :
    Except String (List ℕ) :=
  if kpoints_sort.length ≠ kpoints_sort.length then
    Except.error ("number of k-points must be the same")
  else
    let kt := kpoints_to_first_bz kpoints_true ktol true
    let ks := kpoints_to_first_bz kpoints_sort ktol true
    match get_mesh_from_kpoint_diff kt (1/2000), get_mesh_from_kpoint_diff ks (1/2000) with
    | some mt, some ms =>
      let mesh_true := roundMesh mt.1
      let mesh_sort := roundMesh ms.1
      if mesh_true ≠ mesh_sort then
        Except.error ("k-points have different mesh dimensions")
      else
        let indices_true := get_kpoint_indices kt mesh_true false
        let indices_sort := get_kpoint_indices ks mesh_sort false
        let sort_true_idx := argsort indices_true
        let sort_sort_idx := argsort indices_sort
        if sort_true_idx.all (fun i => i < sort_sort_idx.length) then
          let mapping := sort_true_idx.map (fun i => sort_sort_idx.getD i 0)
          if mapping.all (fun j => j < ks.length) then
            if (List.range kt.length).all (fun i =>
                ¬ ((1/10^10 : ℚ) <
                  sqDist (kt.getD i (0, 0, 0)) (ks.getD (mapping.getD i 0) (0, 0, 0)))) then
              Except.ok mapping
            else Except.error ("Something went wrong with mapping.")
          else Except.error ("IndexError")
        else Except.error ("IndexError")
    | _, _ => Except.error ("zero-size array to reduction operation minimum")

instance decEqExcept : DecidableEq (Except String (List ℕ)) := fun a b =>
  match a, b with
  | Except.error x, Except.error y => decidable_of_iff (x = y) (by simp)
  | Except.error _, Except.ok _ => isFalse (by simp)
  | Except.ok _, Except.error _ => isFalse (by simp)
  | Except.ok x, Except.ok y => decidable_of_iff (x = y) (by simp)

/-- Lexicographic order on k-points used by sort_kpoints: np.lexsort with the
third coordinate as the innermost and the first as the primary key. -/
def kLe (p q : Pt) : Prop :=
  p.1 < q.1 ∨ (p.1 = q.1 ∧ (p.2.1 < q.2.1 ∨ (p.2.1 = q.2.1 ∧ p.2.2 ≤ q.2.2)))

instance kLe.decRel : DecidableRel kLe := fun p q => by unfold kLe; exact inferInstance

/-- The sort key of sort_kpoints: np.round(kpoints, 5). -/
def rKey (p : Pt) : Pt := (roundDp 5 p.1, roundDp 5 p.2.1, roundDp 5 p.2.2)

/-- Comparison of two k-points by the lexicographic order of their rounded keys. -/
def sortRel (p q : Pt) : Prop := kLe (rKey p) (rKey q)

instance sortRel.decRel : DecidableRel sortRel := fun p q => kLe.decRel _ _

/-- sort_kpoints (kpoints.py lines 190-193): reorder the original points by a
stable lexicographic sort of their coordinates rounded to 5 decimals
(np.lexsort is a stable sort, as is insertionSort). -/
def sort_kpoints (kpoints : List Pt) : List Pt :=
  List.insertionSort sortRel kpoints

/-- get_kpoints_tetrahedral (kpoints.py lines 44-111), restricted to its own
computation. The structure conversion, spglib.get_ir_reciprocal_mesh and
get_tetrahedra are external collaborators (excluded by the spec), so their
outputs grid_mapping and grid_address are taken as inputs, and the
tetrahedron outputs, which the function returns untouched, are omitted.
full_kpoints = grid_address / mesh; np.unique(grid_mapping,
return_inverse=True, return_counts=True) gives the distinct representative
indices, the inverse index of each full grid point among them, and their
multiplicities; ir_kpoints = full_kpoints[ir_kpoints_idx] (fancy indexing
raises on an out-of-range index, hence the Option). -/
def get_kpoints_tetrahedral (kpoint_mesh : ℕ × ℕ × ℕ)
    (grid_mapping : List ℕ) (grid_address : List (ℤ × ℤ × ℤ)) :
    Option (List Pt × List ℕ × List Pt × List ℕ × List ℕ) :=
  let full_kpoints : List Pt := grid_address.map (fun g =>
    ((g.1 : ℚ) / (kpoint_mesh.1 : ℚ), (g.2.1 : ℚ) / (kpoint_mesh.2.1 : ℚ),
     (g.2.2 : ℚ) / (kpoint_mesh.2.2 : ℚ)))
  let ir_kpoints_idx := uniqueSorted grid_mapping
  let ir_to_full_idx := grid_mapping.map (fun x => ir_kpoints_idx.indexOf x)
  let weights := ir_kpoints_idx.map (fun v => grid_mapping.count v)
  if ir_kpoints_idx.all (fun i => i < full_kpoints.length) then
    some (ir_kpoints_idx.map (fun i => full_kpoints.getD i (0, 0, 0)),
          weights, full_kpoints, ir_kpoints_idx, ir_to_full_idx)
  else none

/-- The synthetic uniform n1 x n2 x n3 Gamma-centred mesh: fractional
coordinates (a / n1, b / n2, c / n3) in row-major order. -/
def meshPoints (n1 n2 n3 : ℕ) : List Pt :=
  (List.range n1).flatMap (fun (a : ℕ) =>
    (List.range n2).flatMap (fun (b : ℕ) =>
      (List.range n3).map (fun (c : ℕ) =>
        ((a : ℚ) / (n1 : ℚ), (b : ℚ) / (n2 : ℚ), (c : ℚ) / (n3 : ℚ)))))

/-- The synthetic mesh folded to the first zone with the source defaults
(tol = ktol, negative boundary). -/
def foldedMesh (n1 n2 n3 : ℕ) : List Pt :=
  kpoints_to_first_bz (meshPoints n1 n2 n3) ktol true

/-- The integer address that folding sends grid coordinate j / n to:
j itself while 2j < n, and j - n (the negative representative) once 2j ≥ n. -/
def mFold (j n : ℕ) : ℤ := if 2 * j < n then (j : ℤ) else (j : ℤ) - (n : ℤ)

/-- The translated grid address of grid coordinate j / n:
its folded address mFold j n shifted by floor(n / 2) into [0, n). -/
def Aval (n j : ℕ) : ℤ := mFold j n + ((n / 2 : ℕ) : ℤ)

/-- The sorted list of distinct folded coordinates of an n-point axis:
(i - floor(n / 2)) / n for i = 0, ..., n - 1. -/
def gridVals (n : ℕ) : List ℚ :=
  (List.range n).map (fun (i : ℕ) => (((i : ℤ) - ((n / 2 : ℕ) : ℤ) : ℤ) : ℚ) / (n : ℚ))

/-- The distinct sorted first-axis values of the folded 100001 x 1 x 1 mesh.
Grid value 50000/100001 rounds at 5 decimals to exactly 0.5, so the boundary
snap replaces it by -1/2, which sorts below every remaining grid value
m/100001 (m = -50000, ..., 49999). -/
def axisVals100001 : List ℚ :=
  -(1/2) :: (List.range 100000).map (fun (i : ℕ) => (((i : ℤ) - 50000 : ℤ) : ℚ) / 100001)

end Tetrados

namespace Tetrados

end Tetrados

namespace Tetrados

end Tetrados

namespace Tetrados

section RoundingLemmas

theorem qfloor_eq (q : ℚ) : qfloor q = ⌊q⌋ := Rat.floor_def.symm

theorem rnd_intCast (z : ℤ) : rnd (z : ℚ) = z := by
  unfold rnd
  rw [qfloor_eq, Int.floor_intCast]
  norm_num

theorem le_rnd (q : ℚ) : q - 1/2 ≤ (rnd q : ℚ) := by
  unfold rnd
  rw [qfloor_eq]
  have h1 := Int.floor_le q
  have h2 := Int.lt_floor_add_one q
  split_ifs with a b c <;> push_cast <;> push_cast at h1 h2 <;> linarith

theorem rnd_le (q : ℚ) : (rnd q : ℚ) ≤ q + 1/2 := by
  unfold rnd
  rw [qfloor_eq]
  have h1 := Int.floor_le q
  have h2 := Int.lt_floor_add_one q
  split_ifs with a b c <;> push_cast <;> push_cast at h1 h2 <;> linarith

theorem rnd_eq_zero {q : ℚ} (h1 : -(1/2) ≤ q) (h2 : q ≤ 1/2) : rnd q = 0 := by
  unfold rnd
  rw [qfloor_eq]
  by_cases hq : q < 0
  · have hf : ⌊q⌋ = -1 := by
      rw [Int.floor_eq_iff]
      push_cast
      constructor <;> linarith
    rw [hf]
    split_ifs with a b c
    · exfalso
      push_cast at a
      linarith
    · norm_num
    · exfalso
      omega
    · norm_num
  · have hf : ⌊q⌋ = 0 := by
      rw [Int.floor_eq_iff]
      push_cast
      constructor <;> linarith
    rw [hf]
    split_ifs with a b c
    · rfl
    · exfalso
      push_cast at b
      linarith
    · rfl
    · exfalso
      omega

theorem rnd_eq_one {q : ℚ} (h1 : 1/2 < q) (h2 : q < 1) : rnd q = 1 := by
  unfold rnd
  rw [qfloor_eq]
  have hf : ⌊q⌋ = 0 := by
    rw [Int.floor_eq_iff]
    push_cast
    constructor <;> linarith
  rw [hf]
  split_ifs with a b c
  · exfalso
    push_cast at a
    linarith
  · norm_num
  · exfalso
    push_cast at a b
    linarith
  · exfalso
    push_cast at a b
    linarith

theorem roundDp_half {dp : ℕ} (h : 1 ≤ dp) : roundDp dp (1/2) = 1/2 := by
  obtain ⟨e, rfl⟩ := Nat.exists_eq_add_of_le h
  unfold roundDp
  have h1 : (1/2 : ℚ) * 10 ^ (1 + e) = ((5 * 10 ^ e : ℤ) : ℚ) := by
    push_cast
    rw [pow_add]
    ring
  rw [h1, rnd_intCast]
  have h2 : ((10 : ℚ)) ^ (1 + e) ≠ 0 := by positivity
  field_simp
  push_cast
  rw [pow_add]
  ring

theorem roundDp_neg_half {dp : ℕ} (h : 1 ≤ dp) : roundDp dp (-(1/2)) = -(1/2) := by
  obtain ⟨e, rfl⟩ := Nat.exists_eq_add_of_le h
  unfold roundDp
  have h1 : (-(1/2) : ℚ) * 10 ^ (1 + e) = ((-(5 * 10 ^ e) : ℤ) : ℚ) := by
    push_cast
    rw [pow_add]
    ring
  rw [h1, rnd_intCast]
  have h2 : ((10 : ℚ)) ^ (1 + e) ≠ 0 := by positivity
  field_simp
  push_cast
  rw [pow_add]
  ring

theorem roundDp_nonpos {dp : ℕ} {q : ℚ} (h : q ≤ 0) : roundDp dp q ≤ 0 := by
  unfold roundDp
  have hp : (0 : ℚ) < 10 ^ dp := by positivity
  have hx : q * 10 ^ dp ≤ 0 := mul_nonpos_of_nonpos_of_nonneg h (le_of_lt hp)
  have hb := rnd_le (q * 10 ^ dp)
  have hz : rnd (q * 10 ^ dp) ≤ 0 := by
    have : ((rnd (q * 10 ^ dp) : ℤ) : ℚ) < 1 := by linarith
    exact_mod_cast Int.lt_add_one_iff.mp (by exact_mod_cast this)
  apply div_nonpos_of_nonpos_of_nonneg _ (le_of_lt hp)
  exact_mod_cast hz

theorem roundDp_nonneg {dp : ℕ} {q : ℚ} (h : 0 ≤ q) : 0 ≤ roundDp dp q := by
  unfold roundDp
  have hp : (0 : ℚ) < 10 ^ dp := by positivity
  have hx : 0 ≤ q * 10 ^ dp := mul_nonneg h (le_of_lt hp)
  have hb := le_rnd (q * 10 ^ dp)
  have hz : (0 : ℤ) ≤ rnd (q * 10 ^ dp) := by
    have : (-1 : ℚ) < ((rnd (q * 10 ^ dp) : ℤ) : ℚ) := by linarith
    have := (by exact_mod_cast this : (-1 : ℤ) < rnd (q * 10 ^ dp))
    omega
  apply div_nonneg _ (le_of_lt hp)
  exact_mod_cast hz

end RoundingLemmas

end Tetrados

namespace Tetrados

section FoldLemmas

theorem foldCoord_true_def (tol k : ℚ) :
    foldCoord tol true k =
      if roundDp (dpOf tol) (k - (rnd k : ℚ)) = 1/2 then -(1/2) else k - (rnd k : ℚ) := rfl

theorem foldCoord_false_def (tol k : ℚ) :
    foldCoord tol false k =
      if roundDp (dpOf tol) (k - (rnd k : ℚ)) = -(1/2) then 1/2 else k - (rnd k : ℚ) := rfl

theorem wrap_le_half (k : ℚ) : k - (rnd k : ℚ) ≤ 1/2 := by
  have := le_rnd k
  linarith

theorem neg_half_le_wrap (k : ℚ) : -(1/2) ≤ k - (rnd k : ℚ) := by
  have := rnd_le k
  linarith

theorem foldCoord_true_mem {tol : ℚ} (h : 1 ≤ dpOf tol) (k : ℚ) :
    -(1/2) ≤ foldCoord tol true k ∧ foldCoord tol true k < 1/2 := by
  rw [foldCoord_true_def]
  by_cases hkr : roundDp (dpOf tol) (k - (rnd k : ℚ)) = 1/2
  · rw [if_pos hkr]
    norm_num
  · rw [if_neg hkr]
    refine ⟨neg_half_le_wrap k, ?_⟩
    rcases lt_or_eq_of_le (wrap_le_half k) with h1 | h1
    · exact h1
    · exfalso
      apply hkr
      rw [h1]
      exact roundDp_half h

theorem foldCoord_false_mem {tol : ℚ} (h : 1 ≤ dpOf tol) (k : ℚ) :
    -(1/2) < foldCoord tol false k ∧ foldCoord tol false k ≤ 1/2 := by
  rw [foldCoord_false_def]
  by_cases hkr : roundDp (dpOf tol) (k - (rnd k : ℚ)) = -(1/2)
  · rw [if_pos hkr]
    norm_num
  · rw [if_neg hkr]
    refine ⟨?_, wrap_le_half k⟩
    rcases lt_or_eq_of_le (neg_half_le_wrap k) with h1 | h1
    · exact h1
    · exfalso
      apply hkr
      rw [← h1]
      exact roundDp_neg_half h

theorem wrap_half : ((1:ℚ)/2) - (rnd ((1:ℚ)/2) : ℚ) = 1/2 := by
  rw [rnd_eq_zero (by norm_num) (by norm_num)]
  norm_num

theorem foldCoord_true_half {tol : ℚ} (h : 1 ≤ dpOf tol) :
    foldCoord tol true (1/2) = -(1/2) := by
  rw [foldCoord_true_def, wrap_half, if_pos (roundDp_half h)]

theorem foldCoord_false_half {tol : ℚ} (h : 1 ≤ dpOf tol) :
    foldCoord tol false (1/2) = 1/2 := by
  have hne : roundDp (dpOf tol) ((1:ℚ)/2) ≠ -(1/2) := by
    rw [roundDp_half h]
    norm_num
  rw [foldCoord_false_def, wrap_half, if_neg hne]

theorem roundDp_zero (dp : ℕ) : roundDp dp 0 = 0 := by
  unfold roundDp
  rw [zero_mul, rnd_eq_zero (by norm_num) (by norm_num)]
  norm_num

theorem wrap_zero : (0:ℚ) - (rnd (0:ℚ) : ℚ) = 0 := by
  rw [rnd_eq_zero (by norm_num) (by norm_num)]
  norm_num

theorem foldCoord_zero (tol : ℚ) (nzb : Bool) : foldCoord tol nzb 0 = 0 := by
  cases nzb
  · rw [foldCoord_false_def, wrap_zero, roundDp_zero, if_neg (by norm_num)]
  · rw [foldCoord_true_def, wrap_zero, roundDp_zero, if_neg (by norm_num)]

theorem foldCoord_idem (tol : ℚ) (nzb : Bool) (k : ℚ) :
    foldCoord tol nzb (foldCoord tol nzb k) = foldCoord tol nzb k := by
  cases nzb
  · rw [foldCoord_false_def tol k]
    by_cases hkr : roundDp (dpOf tol) (k - (rnd k : ℚ)) = -(1/2)
    · have hne : roundDp (dpOf tol) ((1:ℚ)/2) ≠ -(1/2) := by
        intro hc
        have hge : (0:ℚ) ≤ roundDp (dpOf tol) ((1:ℚ)/2) := roundDp_nonneg (by norm_num)
        rw [hc] at hge
        linarith
      rw [if_pos hkr, foldCoord_false_def, wrap_half, if_neg hne]
    · rw [if_neg hkr, foldCoord_false_def]
      have h0 : rnd (k - (rnd k : ℚ)) = 0 :=
        rnd_eq_zero (neg_half_le_wrap k) (wrap_le_half k)
      rw [h0]
      rw [show k - (rnd k : ℚ) - ((0:ℤ) : ℚ) = k - (rnd k : ℚ) by norm_num]
      rw [if_neg hkr]
  · rw [foldCoord_true_def tol k]
    by_cases hkr : roundDp (dpOf tol) (k - (rnd k : ℚ)) = 1/2
    · have hne : roundDp (dpOf tol) (-((1:ℚ)/2)) ≠ 1/2 := by
        intro hc
        have hle : roundDp (dpOf tol) (-((1:ℚ)/2)) ≤ 0 := roundDp_nonpos (by norm_num)
        rw [hc] at hle
        linarith
      rw [if_pos hkr, foldCoord_true_def]
      have h0 : rnd (-((1:ℚ)/2)) = 0 := rnd_eq_zero (by norm_num) (by norm_num)
      rw [h0]
      rw [show -((1:ℚ)/2) - ((0:ℤ) : ℚ) = -((1:ℚ)/2) by norm_num]
      rw [if_neg hne]
    · rw [if_neg hkr, foldCoord_true_def]
      have h0 : rnd (k - (rnd k : ℚ)) = 0 :=
        rnd_eq_zero (neg_half_le_wrap k) (wrap_le_half k)
      rw [h0]
      rw [show k - (rnd k : ℚ) - ((0:ℤ) : ℚ) = k - (rnd k : ℚ) by norm_num]
      rw [if_neg hkr]

theorem foldPt_idem (tol : ℚ) (nzb : Bool) (p : Pt) :
    foldPt tol nzb (foldPt tol nzb p) = foldPt tol nzb p := by
  unfold foldPt
  simp only [foldCoord_idem]

end FoldLemmas

end Tetrados

namespace Tetrados

section ListLemmas

theorem uniqueSorted_perm_dedup {α : Type} [LinearOrder α] [DecidableEq α] (l : List α) :
    List.Perm (uniqueSorted l) l.dedup := List.perm_insertionSort _ _

theorem uniqueSorted_sorted {α : Type} [LinearOrder α] [DecidableEq α] (l : List α) :
    (uniqueSorted l).Sorted (· ≤ ·) := List.sorted_insertionSort _ _

theorem mem_uniqueSorted {α : Type} [LinearOrder α] [DecidableEq α] {x : α} {l : List α} :
    x ∈ uniqueSorted l ↔ x ∈ l := by
  rw [(uniqueSorted_perm_dedup l).mem_iff, List.mem_dedup]

theorem uniqueSorted_nodup {α : Type} [LinearOrder α] [DecidableEq α] (l : List α) :
    (uniqueSorted l).Nodup := (uniqueSorted_perm_dedup l).nodup_iff.mpr l.nodup_dedup

theorem perm_of_nodup_of_mem_iff {α : Type} [DecidableEq α] {l1 l2 : List α}
    (d1 : l1.Nodup) (d2 : l2.Nodup) (h : ∀ x, x ∈ l1 ↔ x ∈ l2) : List.Perm l1 l2 := by
  rw [← Multiset.coe_eq_coe]
  apply le_antisymm
  · rw [Multiset.le_iff_subset (Multiset.coe_nodup.mpr d1)]
    intro x hx
    rw [Multiset.mem_coe] at hx ⊢
    exact (h x).mp hx
  · rw [Multiset.le_iff_subset (Multiset.coe_nodup.mpr d2)]
    intro x hx
    rw [Multiset.mem_coe] at hx ⊢
    exact (h x).mpr hx

theorem uniqueSorted_eq_of {l M : List ℚ} (hs : List.Sorted (· < ·) M)
    (hm : ∀ x, x ∈ M ↔ x ∈ l) : uniqueSorted l = M := by
  have hnd : M.Nodup := hs.nodup
  have hperm : List.Perm (uniqueSorted l) M :=
    perm_of_nodup_of_mem_iff (uniqueSorted_nodup l) hnd
      (fun x => mem_uniqueSorted.trans ((hm x).symm))
  exact List.eq_of_perm_of_sorted hperm (uniqueSorted_sorted l)
    (hs.imp le_of_lt)

theorem min?_eq_some_iff_rat {l : List ℚ} {v : ℚ} :
    l.min? = some v ↔ v ∈ l ∧ ∀ x ∈ l, v ≤ x := by
  haveI : Std.Antisymm ((· : ℚ) ≤ ·) := ⟨fun h1 h2 => le_antisymm h1 h2⟩
  exact List.min?_eq_some_iff le_refl (fun a b => min_choice a b)
    (fun _ _ _ => le_min_iff)

theorem kLe_total (a b : Pt) : kLe a b ∨ kLe b a := by
  unfold kLe
  rcases lt_trichotomy a.1 b.1 with h | h | h
  · exact Or.inl (Or.inl h)
  · rcases lt_trichotomy a.2.1 b.2.1 with h2 | h2 | h2
    · exact Or.inl (Or.inr ⟨h, Or.inl h2⟩)
    · rcases le_total a.2.2 b.2.2 with h3 | h3
      · exact Or.inl (Or.inr ⟨h, Or.inr ⟨h2, h3⟩⟩)
      · exact Or.inr (Or.inr ⟨h.symm, Or.inr ⟨h2.symm, h3⟩⟩)
    · exact Or.inr (Or.inr ⟨h.symm, Or.inl h2⟩)
  · exact Or.inr (Or.inl h)

theorem kLe_trans {a b c : Pt} (h1 : kLe a b) (h2 : kLe b c) : kLe a c := by
  unfold kLe at h1 h2 ⊢
  rcases h1 with h1 | ⟨e1, h1⟩
  · rcases h2 with h2 | ⟨e2, h2⟩
    · exact Or.inl (lt_trans h1 h2)
    · exact Or.inl (by rw [← e2]; exact h1)
  · rcases h2 with h2 | ⟨e2, h2⟩
    · exact Or.inl (by rw [e1]; exact h2)
    · refine Or.inr ⟨e1.trans e2, ?_⟩
      rcases h1 with h1 | ⟨f1, g1⟩
      · rcases h2 with h2 | ⟨f2, g2⟩
        · exact Or.inl (lt_trans h1 h2)
        · exact Or.inl (by rw [← f2]; exact h1)
      · rcases h2 with h2 | ⟨f2, g2⟩
        · exact Or.inl (by rw [f1]; exact h2)
        · exact Or.inr ⟨f1.trans f2, le_trans g1 g2⟩

instance sortRel.isTotal : IsTotal Pt sortRel := ⟨fun a b => kLe_total (rKey a) (rKey b)⟩

instance sortRel.isTrans : IsTrans Pt sortRel := ⟨fun _ _ _ h1 h2 => kLe_trans h1 h2⟩

end ListLemmas

end Tetrados

namespace Tetrados

section GridLemmas

theorem dpOf_ktol : dpOf ktol = 5 := by decide

theorem qfloor_natCast_div_two (n : ℕ) : qfloor ((n : ℚ) / 2) = ((n / 2 : ℕ) : ℤ) := by
  rw [qfloor_eq, Int.floor_eq_iff]
  constructor
  · rw [le_div_iff (by norm_num : (0:ℚ) < 2)]
    have h := Nat.div_mul_le_self n 2
    push_cast
    exact_mod_cast h
  · rw [div_lt_iff (by norm_num : (0:ℚ) < 2)]
    have h : n < (n / 2 + 1) * 2 := by omega
    push_cast
    exact_mod_cast h

theorem roundDp5_wrap_ne_half {n j : ℕ} (hn : 0 < n) (hle : n ≤ 100000) (h2 : 2 * j < n) :
    roundDp 5 ((j : ℚ) / (n : ℚ)) ≠ 1/2 := by
  have hnQ : (0:ℚ) < (n:ℚ) := by exact_mod_cast hn
  intro hc
  unfold roundDp at hc
  rw [div_eq_iff (by norm_num : ((10:ℚ)^5) ≠ 0)] at hc
  have hcz : rnd ((j:ℚ)/(n:ℚ) * 10^5) = 50000 := by
    have h10 : ((rnd ((j:ℚ)/(n:ℚ) * 10^5) : ℤ) : ℚ) = 50000 := by
      rw [hc]
      norm_num
    exact_mod_cast h10
  have hub := rnd_le ((j:ℚ)/(n:ℚ) * 10^5)
  rw [hcz, div_mul_eq_mul_div] at hub
  have hub2 : (99999 : ℚ)/2 ≤ (j:ℚ) * 10^5 / (n:ℚ) := by linarith
  rw [le_div_iff hnQ] at hub2
  have key : (100000:ℚ) * (n:ℚ) ≤ 200000 * (j:ℚ) + (n:ℚ) := by
    norm_num at hub2
    linarith
  have keyN : 100000 * n ≤ 200000 * j + n := by exact_mod_cast key
  omega

theorem foldCoord_grid {n j : ℕ} (hn : 0 < n) (hle : n ≤ 100000) (hj : j < n) :
    foldCoord ktol true ((j : ℚ) / (n : ℚ)) = ((mFold j n : ℤ) : ℚ) / (n : ℚ) := by
  have hnQ : (0:ℚ) < (n:ℚ) := by exact_mod_cast hn
  rcases lt_trichotomy (2 * j) n with h2 | h2 | h2
  · have hq2 : (j:ℚ)/(n:ℚ) ≤ 1/2 := by
      rw [div_le_div_iff hnQ (by norm_num : (0:ℚ) < 2)]
      have hh : (2 * j : ℕ) ≤ n := le_of_lt h2
      have : ((2 * j : ℕ) : ℚ) ≤ (n : ℚ) := by exact_mod_cast hh
      push_cast at this
      linarith
    have hq0 : (0:ℚ) ≤ (j:ℚ)/(n:ℚ) := by positivity
    have hr : rnd ((j:ℚ)/(n:ℚ)) = 0 := rnd_eq_zero (by linarith) hq2
    have hne : roundDp (dpOf ktol) ((j:ℚ)/(n:ℚ)) ≠ 1/2 := by
      rw [dpOf_ktol]
      exact roundDp5_wrap_ne_half hn hle h2
    rw [foldCoord_true_def, hr]
    rw [show ((j:ℚ)/(n:ℚ) - ((0:ℤ):ℚ)) = (j:ℚ)/(n:ℚ) by norm_num] at *
    rw [if_neg hne, mFold, if_pos h2]
    norm_num
  · have hq : (j:ℚ)/(n:ℚ) = 1/2 := by
      rw [div_eq_div_iff (ne_of_gt hnQ) (by norm_num : (2:ℚ) ≠ 0)]
      have : ((2 * j : ℕ) : ℚ) = (n : ℚ) := by exact_mod_cast h2
      push_cast at this
      linarith
    rw [hq, foldCoord_true_half (by rw [dpOf_ktol]; norm_num)]
    rw [mFold, if_neg (by omega)]
    rw [eq_div_iff (ne_of_gt hnQ)]
    have : ((2 * j : ℕ) : ℚ) = (n : ℚ) := by exact_mod_cast h2
    push_cast at this ⊢
    linarith
  · have hq1 : (1:ℚ)/2 < (j:ℚ)/(n:ℚ) := by
      rw [lt_div_iff hnQ]
      have : (n : ℚ) < ((2 * j : ℕ) : ℚ) := by exact_mod_cast h2
      push_cast at this
      linarith
    have hq2 : (j:ℚ)/(n:ℚ) < 1 := by
      rw [div_lt_one hnQ]
      exact_mod_cast hj
    have hr : rnd ((j:ℚ)/(n:ℚ)) = 1 := rnd_eq_one hq1 hq2
    have hkpe : (j:ℚ)/(n:ℚ) - ((1:ℤ):ℚ) = ((mFold j n : ℤ) : ℚ)/(n:ℚ) := by
      rw [mFold, if_neg (by omega)]
      push_cast
      field_simp
    rw [foldCoord_true_def, hr, hkpe]
    have hneg : ((mFold j n : ℤ) : ℚ)/(n:ℚ) ≤ 0 := by
      apply div_nonpos_of_nonpos_of_nonneg _ (le_of_lt hnQ)
      have hm : mFold j n ≤ 0 := by
        rw [mFold, if_neg (by omega)]
        omega
      exact_mod_cast hm
    have hne : roundDp (dpOf ktol) (((mFold j n : ℤ) : ℚ)/(n:ℚ)) ≠ 1/2 := by
      intro hcc
      have hnp : roundDp (dpOf ktol) (((mFold j n : ℤ) : ℚ)/(n:ℚ)) ≤ 0 := roundDp_nonpos hneg
      rw [hcc] at hnp
      linarith
    rw [if_neg hne]

theorem rnd_fold_grid {n j : ℕ} (hn : 0 < n) (hle : n ≤ 100000) (hj : j < n) :
    rnd (foldCoord ktol true ((j : ℚ) / (n : ℚ)) * (n : ℚ)) = mFold j n := by
  have hnQ : (0:ℚ) < (n:ℚ) := by exact_mod_cast hn
  rw [foldCoord_grid hn hle hj, div_mul_cancel₀ _ (ne_of_gt hnQ), rnd_intCast]

theorem Aval_nonneg {n j : ℕ} (hj : j < n) : 0 ≤ Aval n j := by
  unfold Aval mFold
  split <;> omega

theorem Aval_lt {n j : ℕ} (hj : j < n) : Aval n j < (n : ℤ) := by
  unfold Aval mFold
  split <;> omega

theorem Aval_inj {n j k : ℕ} (hj : j < n) (hk : k < n) (h : Aval n j = Aval n k) : j = k := by
  unfold Aval mFold at h
  split at h <;> split at h <;> omega

theorem int_eq_of_sub_eq_mul {x y d k : ℤ} (hx0 : 0 ≤ x) (hxd : x < d)
    (hy0 : 0 ≤ y) (hyd : y < d) (h : x - y = d * k) : x = y := by
  rcases lt_trichotomy k 0 with hk | hk | hk
  · have h1 : d * k ≤ d * (-1) := by
      apply mul_le_mul_of_nonneg_left (by omega) (by omega)
    have : d * (-1) = -d := by ring
    omega
  · rw [hk, mul_zero] at h
    omega
  · have h1 : d * 1 ≤ d * k := by
      apply mul_le_mul_of_nonneg_left (by omega) (by omega)
    have : d * 1 = d := by ring
    omega

theorem triple_inj {n2 n3 A B C A2 B2 C2 : ℤ}
    (hB0 : 0 ≤ B) (hBn : B < n2) (hB20 : 0 ≤ B2) (hB2n : B2 < n2)
    (hC0 : 0 ≤ C) (hCn : C < n3) (hC20 : 0 ≤ C2) (hC2n : C2 < n3)
    (h : A * (n2 * n3) + B * n3 + C = A2 * (n2 * n3) + B2 * n3 + C2) :
    A = A2 ∧ B = B2 ∧ C = C2 := by
  have hn3 : 0 < n3 := lt_of_le_of_lt hC0 hCn
  have hn2 : 0 < n2 := lt_of_le_of_lt hB0 hBn
  have e1 : C - C2 = n3 * ((A2 - A) * n2 + (B2 - B)) := by linear_combination h
  have hC : C = C2 := int_eq_of_sub_eq_mul hC0 hCn hC20 hC2n e1
  rw [hC] at e1
  have e1z : n3 * ((A2 - A) * n2 + (B2 - B)) = 0 := by
    rw [← e1]
    ring
  have e2 : (A2 - A) * n2 + (B2 - B) = 0 := by
    rcases mul_eq_zero.mp e1z with h0 | h0
    · omega
    · exact h0
  have e3 : B - B2 = n2 * (A2 - A) := by linear_combination -e2
  have hB : B = B2 := int_eq_of_sub_eq_mul hB0 hBn hB20 hB2n e3
  have hA : A = A2 := by
    rw [hB] at e3
    have : n2 * (A2 - A) = 0 := by omega
    rcases mul_eq_zero.mp this with h0 | h0
    · omega
    · omega
  exact ⟨hA, hB, hC⟩

end GridLemmas

end Tetrados

namespace Tetrados

section MeshStructure

theorem flatMap_congr {α β : Type} {l : List α} {f g : α → List β}
    (h : ∀ a ∈ l, f a = g a) : l.flatMap f = l.flatMap g := by
  induction l with
  | nil => rfl
  | cons x xs ih =>
    simp only [List.flatMap_cons]
    rw [h x (by simp), ih (fun a ha => h a (by simp [ha]))]

theorem flatMap_singleton_map {α β : Type} (l : List α) (g : α → β) :
    l.flatMap (fun a => [g a]) = l.map g := by
  induction l with
  | nil => rfl
  | cons x xs ih => simp [List.flatMap_cons, ih]

theorem length_flatMap_const {α β : Type} {l : List α} {f : α → List β} {k : ℕ}
    (h : ∀ a ∈ l, (f a).length = k) : (l.flatMap f).length = l.length * k := by
  induction l with
  | nil => simp
  | cons x xs ih =>
    simp only [List.flatMap_cons, List.length_append, List.length_cons]
    rw [h x (by simp), ih (fun a ha => h a (by simp [ha]))]
    ring

theorem meshPoints_length (n1 n2 n3 : ℕ) : (meshPoints n1 n2 n3).length = n1 * n2 * n3 := by
  unfold meshPoints
  have hin : ∀ a : ℕ, ((List.range n2).flatMap (fun (b : ℕ) =>
      (List.range n3).map (fun (c : ℕ) =>
        (((a : ℚ) / (n1 : ℚ), (b : ℚ) / (n2 : ℚ), (c : ℚ) / (n3 : ℚ)) : Pt)))).length
        = n2 * n3 := by
    intro a
    have h2 : ∀ b ∈ List.range n2, ((List.range n3).map (fun (c : ℕ) =>
        (((a : ℚ) / (n1 : ℚ), (b : ℚ) / (n2 : ℚ), (c : ℚ) / (n3 : ℚ)) : Pt))).length = n3 := by
      intro b _
      rw [List.length_map, List.length_range]
    rw [length_flatMap_const h2, List.length_range]
  rw [length_flatMap_const (fun a _ => hin a), List.length_range, mul_assoc]

theorem idxPt_unshifted (n1 n2 n3 : ℕ) (p : Pt) :
    idxPt ((n1:ℤ), (n2:ℤ), (n3:ℤ)) false p =
      (rnd (p.1 * (n1:ℚ)) + ((n1 / 2 : ℕ) : ℤ)) * ((n2:ℤ) * (n3:ℤ)) +
      (rnd (p.2.1 * (n2:ℚ)) + ((n2 / 2 : ℕ) : ℤ)) * (n3:ℤ) +
      (rnd (p.2.2 * (n3:ℚ)) + ((n3 / 2 : ℕ) : ℤ)) := by
  unfold idxPt
  norm_num [qfloor_natCast_div_two, sub_neg_eq_add]

theorem indices_foldedMesh (n1 n2 n3 : ℕ) (h1 : 0 < n1) (h2 : 0 < n2) (h3 : 0 < n3)
    (b1 : n1 ≤ 100000) (b2 : n2 ≤ 100000) (b3 : n3 ≤ 100000) :
    get_kpoint_indices (foldedMesh n1 n2 n3) ((n1:ℤ), (n2:ℤ), (n3:ℤ)) false =
      (List.range n1).flatMap (fun a => (List.range n2).flatMap (fun b =>
        (List.range n3).map (fun c =>
          Aval n1 a * ((n2:ℤ) * (n3:ℤ)) + Aval n2 b * (n3:ℤ) + Aval n3 c))) := by
  unfold get_kpoint_indices foldedMesh kpoints_to_first_bz meshPoints
  rw [List.map_map, List.map_flatMap]
  apply flatMap_congr
  intro a ha
  rw [List.map_flatMap]
  apply flatMap_congr
  intro b hb
  rw [List.map_map]
  apply List.map_congr_left
  intro c hc
  have ea := rnd_fold_grid h1 b1 (List.mem_range.mp ha)
  have eb := rnd_fold_grid h2 b2 (List.mem_range.mp hb)
  have ec := rnd_fold_grid h3 b3 (List.mem_range.mp hc)
  show idxPt ((n1:ℤ), (n2:ℤ), (n3:ℤ)) false (foldPt ktol true _) = _
  rw [idxPt_unshifted]
  unfold foldPt
  rw [show (foldCoord ktol true ((a:ℚ)/(n1:ℚ)), foldCoord ktol true ((b:ℚ)/(n2:ℚ)),
        foldCoord ktol true ((c:ℚ)/(n3:ℚ))).1 = foldCoord ktol true ((a:ℚ)/(n1:ℚ)) from rfl]
  rw [show ((foldCoord ktol true ((a:ℚ)/(n1:ℚ)), foldCoord ktol true ((b:ℚ)/(n2:ℚ)),
        foldCoord ktol true ((c:ℚ)/(n3:ℚ))) : Pt).2.1 = foldCoord ktol true ((b:ℚ)/(n2:ℚ)) from rfl]
  rw [show ((foldCoord ktol true ((a:ℚ)/(n1:ℚ)), foldCoord ktol true ((b:ℚ)/(n2:ℚ)),
        foldCoord ktol true ((c:ℚ)/(n3:ℚ))) : Pt).2.2 = foldCoord ktol true ((c:ℚ)/(n3:ℚ)) from rfl]
  rw [ea, eb, ec]
  rfl

end MeshStructure

end Tetrados

namespace Tetrados

section IndexInjectivity

theorem indices_nodup (n1 n2 n3 : ℕ) (h1 : 0 < n1) (h2 : 0 < n2) (h3 : 0 < n3)
    (b1 : n1 ≤ 100000) (b2 : n2 ≤ 100000) (b3 : n3 ≤ 100000) :
    (get_kpoint_indices (foldedMesh n1 n2 n3) ((n1:ℤ), (n2:ℤ), (n3:ℤ)) false).Nodup := by
  rw [indices_foldedMesh n1 n2 n3 h1 h2 h3 b1 b2 b3]
  rw [List.nodup_flatMap]
  constructor
  · intro a ha
    rw [List.nodup_flatMap]
    constructor
    · intro b hb
      apply List.Nodup.map_on _ (List.nodup_range _)
      intro x hx y hy hxy
      have hz : Aval n3 x = Aval n3 y := by
        exact add_left_cancel hxy
      exact Aval_inj (List.mem_range.mp hx) (List.mem_range.mp hy) hz
    · apply List.Nodup.pairwise_of_forall_ne (List.nodup_range _)
      intro b hb bp hbp hne z hz hzp
      simp only [List.mem_map, List.mem_range] at hz hzp
      obtain ⟨c, hc, hcz⟩ := hz
      obtain ⟨cp, hcp, hczp⟩ := hzp
      have heq : Aval n1 a * ((n2:ℤ) * (n3:ℤ)) + Aval n2 b * (n3:ℤ) + Aval n3 c =
          Aval n1 a * ((n2:ℤ) * (n3:ℤ)) + Aval n2 bp * (n3:ℤ) + Aval n3 cp := by
        rw [hcz, hczp]
      obtain ⟨hA, hB, hC⟩ := triple_inj
        (Aval_nonneg (List.mem_range.mp hb)) (Aval_lt (List.mem_range.mp hb))
        (Aval_nonneg (List.mem_range.mp hbp)) (Aval_lt (List.mem_range.mp hbp))
        (Aval_nonneg hc) (Aval_lt hc) (Aval_nonneg hcp) (Aval_lt hcp) heq
      exact hne (Aval_inj (List.mem_range.mp hb) (List.mem_range.mp hbp) hB)
  · apply List.Nodup.pairwise_of_forall_ne (List.nodup_range _)
    intro a ha ap hap hne z hz hzp
    simp only [List.mem_flatMap, List.mem_map, List.mem_range] at hz hzp
    obtain ⟨b, hb, c, hc, hcz⟩ := hz
    obtain ⟨bp, hbp, cp, hcp, hczp⟩ := hzp
    have heq : Aval n1 a * ((n2:ℤ) * (n3:ℤ)) + Aval n2 b * (n3:ℤ) + Aval n3 c =
        Aval n1 ap * ((n2:ℤ) * (n3:ℤ)) + Aval n2 bp * (n3:ℤ) + Aval n3 cp := by
      rw [hcz, hczp]
    obtain ⟨hA, hB, hC⟩ := triple_inj
      (Aval_nonneg hb) (Aval_lt hb) (Aval_nonneg hbp) (Aval_lt hbp)
      (Aval_nonneg hc) (Aval_lt hc) (Aval_nonneg hcp) (Aval_lt hcp) heq
    exact hne (Aval_inj (List.mem_range.mp ha) (List.mem_range.mp hap) hA)

theorem indices_length (n1 n2 n3 : ℕ) :
    (get_kpoint_indices (foldedMesh n1 n2 n3) ((n1:ℤ), (n2:ℤ), (n3:ℤ)) false).length
      = n1 * n2 * n3 := by
  unfold get_kpoint_indices foldedMesh kpoints_to_first_bz
  rw [List.length_map, List.length_map, meshPoints_length]

end IndexInjectivity

end Tetrados

namespace Tetrados

section Collision

theorem meshPoints_n11 (n : ℕ) :
    meshPoints n 1 1 = (List.range n).map (fun (a : ℕ) =>
      (((a : ℚ) / (n : ℚ), ((0:ℕ) : ℚ) / ((1:ℕ) : ℚ), ((0:ℕ) : ℚ) / ((1:ℕ) : ℚ)) : Pt)) := by
  unfold meshPoints
  simp only [show List.range 1 = [0] from by decide, List.flatMap_cons, List.flatMap_nil,
    List.append_nil, List.map_cons, List.map_nil]
  exact flatMap_singleton_map _ _

theorem indices_n11_form (n : ℕ) :
    get_kpoint_indices (foldedMesh n 1 1) ((n:ℤ), (1:ℤ), (1:ℤ)) false =
      (List.range n).map ((idxPt ((n:ℤ), (1:ℤ), (1:ℤ)) false ∘ foldPt ktol true) ∘
        (fun (a : ℕ) => (((a : ℚ) / (n : ℚ), ((0:ℕ) : ℚ) / ((1:ℕ) : ℚ),
          ((0:ℕ) : ℚ) / ((1:ℕ) : ℚ)) : Pt))) := by
  show List.map (idxPt ((n:ℤ), (1:ℤ), (1:ℤ)) false)
      (List.map (foldPt ktol true) (meshPoints n 1 1)) = _
  rw [meshPoints_n11, List.map_map, List.map_map]

theorem collision_100001 :
    idxPt ((100001:ℤ), (1:ℤ), (1:ℤ)) false (foldPt ktol true
      ((((50000:ℕ) : ℚ) / ((100001:ℕ) : ℚ), ((0:ℕ) : ℚ) / ((1:ℕ) : ℚ),
        ((0:ℕ) : ℚ) / ((1:ℕ) : ℚ)) : Pt)) =
    idxPt ((100001:ℤ), (1:ℤ), (1:ℤ)) false (foldPt ktol true
      ((((50001:ℕ) : ℚ) / ((100001:ℕ) : ℚ), ((0:ℕ) : ℚ) / ((1:ℕ) : ℚ),
        ((0:ℕ) : ℚ) / ((1:ℕ) : ℚ)) : Pt)) := by decide

end Collision

end Tetrados

namespace Tetrados

section GridValsLemmas

theorem map_range_not_nodup {β : Type} (N i j : ℕ) (g : ℕ → β) (hi : i < N) (hj : j < N)
    (hne : i ≠ j) (heq : g i = g j) : ¬ ((List.range N).map g).Nodup := by
  intro hnd
  have h1 : i < ((List.range N).map g).length := by
    rw [List.length_map, List.length_range]
    exact hi
  have h2 : j < ((List.range N).map g).length := by
    rw [List.length_map, List.length_range]
    exact hj
  have hget : ((List.range N).map g).get ⟨i, h1⟩ = ((List.range N).map g).get ⟨j, h2⟩ := by
    simp only [List.get_eq_getElem, List.getElem_map, List.getElem_range]
    exact heq
  have hij := hnd.get_inj_iff.mp hget
  exact hne (by simpa using hij)

theorem length_gridVals (n : ℕ) : (gridVals n).length = n := by
  unfold gridVals
  rw [List.length_map, List.length_range]

theorem gridVals_sorted {n : ℕ} (hn : 0 < n) : List.Sorted (· < ·) (gridVals n) := by
  have hnQ : (0:ℚ) < (n:ℚ) := by exact_mod_cast hn
  unfold gridVals List.Sorted
  rw [List.pairwise_map]
  apply List.Pairwise.imp ?mono (List.pairwise_lt_range n)
  case mono =>
    intro i j hij
    rw [div_lt_div_iff_of_pos_right hnQ]
    have hq : (i : ℚ) < (j : ℚ) := by exact_mod_cast hij
    push_cast
    linarith

theorem mem_gridVals {n : ℕ} (hn : 0 < n) (hle : n ≤ 100000) {x : ℚ} :
    x ∈ gridVals n ↔ ∃ j, j < n ∧ foldCoord ktol true ((j:ℚ)/(n:ℚ)) = x := by
  unfold gridVals
  simp only [List.mem_map, List.mem_range]
  constructor
  · rintro ⟨i, hi, rfl⟩
    by_cases hik : n / 2 ≤ i
    · refine ⟨i - n / 2, by omega, ?_⟩
      rw [foldCoord_grid hn hle (show i - n / 2 < n by omega)]
      rw [show mFold (i - n / 2) n = (i:ℤ) - ((n/2:ℕ):ℤ) from by unfold mFold; split <;> omega]
    · refine ⟨i + (n - n / 2), by omega, ?_⟩
      rw [foldCoord_grid hn hle (show i + (n - n / 2) < n by omega)]
      rw [show mFold (i + (n - n / 2)) n = (i:ℤ) - ((n/2:ℕ):ℤ) from
        by unfold mFold; split <;> omega]
  · rintro ⟨j, hj, rfl⟩
    refine ⟨(Aval n j).toNat, ?_, ?_⟩
    · have h1 := Aval_lt hj
      have h0 := Aval_nonneg hj
      omega
    · rw [foldCoord_grid hn hle hj]
      have h0 := Aval_nonneg hj
      rw [show (((Aval n j).toNat : ℕ) : ℤ) - ((n/2:ℕ):ℤ) = mFold j n from by
        rw [Int.toNat_of_nonneg h0]; unfold Aval; omega]

end GridValsLemmas

end Tetrados

namespace Tetrados

section AxisLemmas

theorem mem_meshPoints {n1 n2 n3 : ℕ} {p : Pt} :
    p ∈ meshPoints n1 n2 n3 ↔ ∃ a, a < n1 ∧ ∃ b, b < n2 ∧ ∃ c, c < n3 ∧
      (((a:ℚ)/(n1:ℚ), (b:ℚ)/(n2:ℚ), (c:ℚ)/(n3:ℚ)) : Pt) = p := by
  unfold meshPoints
  simp only [List.mem_flatMap, List.mem_map, List.mem_range]

theorem mem_fold_fst {n1 n2 n3 : ℕ} (h2 : 0 < n2) (h3 : 0 < n3) {x : ℚ} :
    x ∈ (foldedMesh n1 n2 n3).map (fun p => p.1) ↔
      ∃ a, a < n1 ∧ foldCoord ktol true ((a:ℚ)/(n1:ℚ)) = x := by
  unfold foldedMesh kpoints_to_first_bz
  rw [List.map_map]
  simp only [List.mem_map]
  constructor
  · rintro ⟨p, hp, rfl⟩
    obtain ⟨a, ha, b, hb, c, hc, rfl⟩ := mem_meshPoints.mp hp
    exact ⟨a, ha, rfl⟩
  · rintro ⟨a, ha, rfl⟩
    refine ⟨(((a:ℚ)/(n1:ℚ), ((0:ℕ):ℚ)/(n2:ℚ), ((0:ℕ):ℚ)/(n3:ℚ)) : Pt), ?_, rfl⟩
    exact mem_meshPoints.mpr ⟨a, ha, 0, h2, 0, h3, rfl⟩

theorem mem_fold_snd {n1 n2 n3 : ℕ} (h1 : 0 < n1) (h3 : 0 < n3) {x : ℚ} :
    x ∈ (foldedMesh n1 n2 n3).map (fun p => p.2.1) ↔
      ∃ b, b < n2 ∧ foldCoord ktol true ((b:ℚ)/(n2:ℚ)) = x := by
  unfold foldedMesh kpoints_to_first_bz
  rw [List.map_map]
  simp only [List.mem_map]
  constructor
  · rintro ⟨p, hp, rfl⟩
    obtain ⟨a, ha, b, hb, c, hc, rfl⟩ := mem_meshPoints.mp hp
    exact ⟨b, hb, rfl⟩
  · rintro ⟨b, hb, rfl⟩
    refine ⟨((((0:ℕ):ℚ)/(n1:ℚ), (b:ℚ)/(n2:ℚ), ((0:ℕ):ℚ)/(n3:ℚ)) : Pt), ?_, rfl⟩
    exact mem_meshPoints.mpr ⟨0, h1, b, hb, 0, h3, rfl⟩

theorem mem_fold_trd {n1 n2 n3 : ℕ} (h1 : 0 < n1) (h2 : 0 < n2) {x : ℚ} :
    x ∈ (foldedMesh n1 n2 n3).map (fun p => p.2.2) ↔
      ∃ c, c < n3 ∧ foldCoord ktol true ((c:ℚ)/(n3:ℚ)) = x := by
  unfold foldedMesh kpoints_to_first_bz
  rw [List.map_map]
  simp only [List.mem_map]
  constructor
  · rintro ⟨p, hp, rfl⟩
    obtain ⟨a, ha, b, hb, c, hc, rfl⟩ := mem_meshPoints.mp hp
    exact ⟨c, hc, rfl⟩
  · rintro ⟨c, hc, rfl⟩
    refine ⟨((((0:ℕ):ℚ)/(n1:ℚ), ((0:ℕ):ℚ)/(n2:ℚ), (c:ℚ)/(n3:ℚ)) : Pt), ?_, rfl⟩
    exact mem_meshPoints.mpr ⟨0, h1, 0, h2, c, hc, rfl⟩

theorem uniqueSorted_axis {n : ℕ} (hn : 0 < n) (hle : n ≤ 100000) {coords : List ℚ}
    (hmem : ∀ x, x ∈ coords ↔ ∃ j, j < n ∧ foldCoord ktol true ((j:ℚ)/(n:ℚ)) = x) :
    uniqueSorted coords = gridVals n :=
  uniqueSorted_eq_of (gridVals_sorted hn)
    (fun x => (mem_gridVals hn hle).trans ((hmem x).symm))

theorem gaps_gridVals {n : ℕ} (hn : 0 < n) :
    gaps (gridVals n) = List.replicate (n - 1) (1/(n:ℚ)) := by
  apply List.ext_getElem
  · simp only [gaps, List.length_zipWith, List.length_tail, length_gridVals,
      List.length_replicate]
    omega
  · intro i h1 h2
    simp only [gaps, List.getElem_zipWith, List.getElem_tail, List.getElem_replicate,
      gridVals, List.getElem_map, List.getElem_range]
    rw [div_sub_div_same]
    congr 1
    push_cast
    ring

theorem axis_option_value {n : ℕ} (hn : 0 < n) (hup : n ≤ 99999) :
    (if (gridVals n).length = 1 then some (1:ℚ)
     else ((gaps (gridVals n)).filter (fun g => ktol < g)).min?.map (fun x => 1/x)) =
      some ((n:ℚ)) := by
  have hnQ : (0:ℚ) < (n:ℚ) := by exact_mod_cast hn
  by_cases h1 : n = 1
  · subst h1
    rw [if_pos (by rw [length_gridVals])]
    norm_num
  · rw [if_neg (by rw [length_gridVals]; omega)]
    rw [gaps_gridVals hn]
    have hkt : ktol < 1/(n:ℚ) := by
      unfold ktol
      apply one_div_lt_one_div_of_lt hnQ
      have : (n:ℚ) ≤ 99999 := by exact_mod_cast hup
      linarith
    rw [List.filter_eq_self.mpr ?all]
    case all =>
      intro a ha
      rw [List.eq_of_mem_replicate ha]
      exact decide_eq_true hkt
    rw [List.min?_replicate (min_self _)]
    rw [if_neg (by omega : ¬ (n - 1 = 0))]
    show some (1 / (1 / (n:ℚ))) = some ((n:ℚ))
    rw [one_div_one_div]

end AxisLemmas

end Tetrados

namespace Tetrados

theorem min?_normSq_perm_foldedMesh {n1 n2 n3 : ℕ} (h1 : 0 < n1) (h2 : 0 < n2) (h3 : 0 < n3)
    {l : List Pt} (hl : List.Perm l (foldedMesh n1 n2 n3)) :
    (l.map normSq).min? = some 0 := by
  apply min?_eq_some_iff_rat.mpr
  constructor
  · have hor : (((0:ℚ), (0:ℚ), (0:ℚ)) : Pt) ∈ l := by
      rw [hl.mem_iff]
      unfold foldedMesh kpoints_to_first_bz
      refine List.mem_map.mpr ⟨((((0:ℕ):ℚ)/(n1:ℚ), ((0:ℕ):ℚ)/(n2:ℚ), ((0:ℕ):ℚ)/(n3:ℚ)) : Pt),
        mem_meshPoints.mpr ⟨0, h1, 0, h2, 0, h3, rfl⟩, ?_⟩
      unfold foldPt
      rw [show (((0:ℕ):ℚ)/(n1:ℚ)) = 0 by norm_num]
      rw [show (((0:ℕ):ℚ)/(n2:ℚ)) = 0 by norm_num]
      rw [show (((0:ℕ):ℚ)/(n3:ℚ)) = 0 by norm_num]
      rw [foldCoord_zero]
    refine List.mem_map.mpr ⟨_, hor, ?_⟩
    unfold normSq
    norm_num
  · intro x hx
    obtain ⟨p, hp, rfl⟩ := List.mem_map.mp hx
    unfold normSq
    positivity

theorem mesh_inference_perm (n1 n2 n3 : ℕ) (h1 : 0 < n1) (h2 : 0 < n2) (h3 : 0 < n3)
    (u1 : n1 ≤ 99999) (u2 : n2 ≤ 99999) (u3 : n3 ≤ 99999)
    {l : List Pt} (hl : List.Perm l (foldedMesh n1 n2 n3)) (tol : ℚ) :
    get_mesh_from_kpoint_diff l tol = some (((n1:ℚ), (n2:ℚ), (n3:ℚ)), false) := by
  have hmin := min?_normSq_perm_foldedMesh h1 h2 h3 hl
  have hua : uniqueSorted (l.map (fun p => p.1)) = gridVals n1 := by
    apply uniqueSorted_axis h1 (by omega)
    intro x
    rw [(hl.map (fun p => p.1)).mem_iff]
    exact mem_fold_fst h2 h3
  have hub : uniqueSorted (l.map (fun p => p.2.1)) = gridVals n2 := by
    apply uniqueSorted_axis h2 (by omega)
    intro x
    rw [(hl.map (fun p => p.2.1)).mem_iff]
    exact mem_fold_snd h1 h3
  have huc : uniqueSorted (l.map (fun p => p.2.2)) = gridVals n3 := by
    apply uniqueSorted_axis h3 (by omega)
    intro x
    rw [(hl.map (fun p => p.2.2)).mem_iff]
    exact mem_fold_trd h1 h2
  unfold get_mesh_from_kpoint_diff
  rw [hmin]
  dsimp only
  rw [hua, hub, huc]
  rw [show (List.filter (fun g => decide (ktol < g))
        (List.filter (fun g => decide (ktol < g)) (gaps (gridVals n1)))) =
      List.filter (fun g => decide (ktol < g)) (gaps (gridVals n1)) from by
    rw [List.filter_filter]
    congr 1
    funext a
    rw [Bool.and_self]]
  rw [axis_option_value h1 u1, axis_option_value h2 u2, axis_option_value h3 u3]
  rw [show decide ((1:ℚ)/10^12 < 0) = false from rfl]

end Tetrados

namespace Tetrados

section RemainingLemmas

theorem shift_flag_iff {kps : List Pt} {t : ℚ} {md : ℚ × ℚ × ℚ} {b : Bool}
    (h : get_mesh_from_kpoint_diff kps t = some (md, b)) :
    b = true ↔ ∀ p ∈ kps, (1:ℚ)/10^12 < normSq p := by
  unfold get_mesh_from_kpoint_diff at h
  cases hmin : (kps.map normSq).min? with
  | none =>
    rw [hmin] at h
    exact absurd h (by simp)
  | some m =>
    rw [hmin] at h
    dsimp only at h
    split at h
    · injection h with h'
      have hb : decide ((1:ℚ)/10^12 < m) = b := congrArg Prod.snd h'
      obtain ⟨hmem, hall⟩ := min?_eq_some_iff_rat.mp hmin
      rw [← hb, decide_eq_true_eq]
      constructor
      · intro hd p hp
        exact lt_of_lt_of_le hd (hall (normSq p) (List.mem_map.mpr ⟨p, hp, rfl⟩))
      · intro hall2
        obtain ⟨p0, hp0, hp0e⟩ := List.mem_map.mp hmem
        rw [← hp0e]
        exact hall2 p0 hp0
    · exact absurd h (by simp)

theorem double_ktol_filter (l : List ℚ) :
    (l.filter (fun g => ktol < g)).filter (fun g => ktol < g) =
      l.filter (fun g => ktol < g) := by
  rw [List.filter_filter]
  congr 1
  funext a
  rw [Bool.and_self]

theorem sum_map_count {α : Type} [DecidableEq α] {l u : List α} (hnd : u.Nodup)
    (hm : ∀ x, x ∈ u ↔ x ∈ l) : (u.map (fun v => l.count v)).sum = l.length := by
  have h1 : u.toFinset = l.toFinset := by
    apply Finset.ext
    intro a
    rw [List.mem_toFinset, List.mem_toFinset]
    exact hm a
  have h2 := List.sum_toFinset (fun v => l.count v) hnd
  rw [← h2, h1, List.sum_toFinset_count_eq_length]

theorem mapping_shape_mismatch {kt ks : List Pt} {mt ms : (ℚ × ℚ × ℚ) × Bool}
    (ht : get_mesh_from_kpoint_diff (kpoints_to_first_bz kt ktol true) (1/2000) = some mt)
    (hs : get_mesh_from_kpoint_diff (kpoints_to_first_bz ks ktol true) (1/2000) = some ms)
    (hne : roundMesh mt.1 ≠ roundMesh ms.1) :
    get_kpoint_mapping kt ks = Except.error ("k-points have different mesh dimensions") := by
  unfold get_kpoint_mapping
  rw [if_neg (by simp)]
  dsimp only
  rw [ht, hs]
  dsimp only
  rw [if_pos hne]

end RemainingLemmas

end Tetrados

namespace Tetrados

section Axis100001

theorem length_axisVals100001 : axisVals100001.length = 100001 := by
  unfold axisVals100001
  rw [List.length_cons, List.length_map, List.length_range]

theorem roundDp5_50000_100001 : roundDp 5 ((50000 : ℚ) / 100001) = 1/2 := by decide

theorem foldCoord_100001_snap :
    foldCoord ktol true ((50000 : ℚ) / 100001) = -(1/2) := by
  have hr : rnd ((50000 : ℚ) / 100001) = 0 := rnd_eq_zero (by norm_num) (by norm_num)
  rw [foldCoord_true_def, hr]
  rw [show ((50000 : ℚ) / 100001 - ((0 : ℤ) : ℚ)) = (50000 : ℚ) / 100001 by norm_num]
  rw [dpOf_ktol, if_pos roundDp5_50000_100001]

theorem foldCoord_100001_low {j : ℕ} (hj : j ≤ 49999) :
    foldCoord ktol true ((j : ℚ) / 100001) = (j : ℚ) / 100001 := by
  have hjq : (j : ℚ) ≤ 49999 := by exact_mod_cast hj
  have hq0 : (0 : ℚ) ≤ (j : ℚ) / 100001 := by positivity
  have hq2 : (j : ℚ) / 100001 ≤ 1/2 := by
    rw [div_le_div_iff (by norm_num : (0:ℚ) < 100001) (by norm_num : (0:ℚ) < 2)]
    linarith
  have hr : rnd ((j : ℚ) / 100001) = 0 := rnd_eq_zero (by linarith) hq2
  have hne : roundDp (dpOf ktol) ((j : ℚ) / 100001) ≠ 1/2 := by
    rw [dpOf_ktol]
    intro hc
    unfold roundDp at hc
    rw [div_eq_iff (by norm_num : ((10:ℚ)^5) ≠ 0)] at hc
    have hcz : rnd ((j : ℚ) / 100001 * 10^5) = 50000 := by
      have h10 : ((rnd ((j : ℚ) / 100001 * 10^5) : ℤ) : ℚ) = 50000 := by
        rw [hc]
        norm_num
      exact_mod_cast h10
    have hub := rnd_le ((j : ℚ) / 100001 * 10^5)
    rw [hcz, div_mul_eq_mul_div] at hub
    rw [show ((10:ℚ)^5) = 100000 by norm_num] at hub
    have hub2 : (99999 : ℚ) / 2 ≤ (j : ℚ) * 100000 / 100001 := by linarith
    rw [le_div_iff (by norm_num : (0:ℚ) < 100001)] at hub2
    have keyN : 99999 * 100001 ≤ j * 100000 * 2 := by
      have hkq : (99999 : ℚ) * 100001 ≤ (j : ℚ) * 100000 * 2 := by linarith
      exact_mod_cast hkq
    omega
  rw [foldCoord_true_def, hr]
  rw [show ((j : ℚ) / 100001 - ((0 : ℤ) : ℚ)) = (j : ℚ) / 100001 by norm_num]
  rw [if_neg hne]

theorem foldCoord_100001_high {j : ℕ} (h1 : 50001 ≤ j) (h2 : j ≤ 100000) :
    foldCoord ktol true ((j : ℚ) / 100001) = ((j : ℚ) - 100001) / 100001 := by
  have h1q : (50001 : ℚ) ≤ (j : ℚ) := by exact_mod_cast h1
  have h2q : (j : ℚ) ≤ 100000 := by exact_mod_cast h2
  have hq1 : (1 : ℚ)/2 < (j : ℚ) / 100001 := by
    rw [div_lt_div_iff (by norm_num : (0:ℚ) < 2) (by norm_num : (0:ℚ) < 100001)]
    linarith
  have hq2 : (j : ℚ) / 100001 < 1 := by
    rw [div_lt_one (by norm_num : (0:ℚ) < 100001)]
    linarith
  have hr : rnd ((j : ℚ) / 100001) = 1 := rnd_eq_one hq1 hq2
  have hkpe : (j : ℚ) / 100001 - ((1 : ℤ) : ℚ) = ((j : ℚ) - 100001) / 100001 := by
    push_cast
    ring
  have hneg : ((j : ℚ) - 100001) / 100001 ≤ 0 := by
    apply div_nonpos_of_nonpos_of_nonneg _ (by norm_num : (0:ℚ) ≤ 100001)
    linarith
  have hne : roundDp (dpOf ktol) (((j : ℚ) - 100001) / 100001) ≠ 1/2 := by
    intro hcc
    have hnp : roundDp (dpOf ktol) (((j : ℚ) - 100001) / 100001) ≤ 0 :=
      roundDp_nonpos hneg
    rw [hcc] at hnp
    linarith
  rw [foldCoord_true_def, hr, hkpe, if_neg hne]

theorem axisVals100001_sorted : List.Sorted (· < ·) axisVals100001 := by
  unfold axisVals100001
  rw [List.sorted_cons]
  constructor
  · intro b hb
    obtain ⟨i, hi, rfl⟩ := List.mem_map.mp hb
    rw [lt_div_iff (by norm_num : (0:ℚ) < 100001)]
    have hz : (-50000 : ℚ) ≤ (((i : ℤ) - 50000 : ℤ) : ℚ) := by
      have hzi : (-50000 : ℤ) ≤ (i : ℤ) - 50000 := by omega
      exact_mod_cast hzi
    linarith
  · unfold List.Sorted
    rw [List.pairwise_map]
    apply List.Pairwise.imp ?mono (List.pairwise_lt_range 100000)
    case mono =>
      intro i j hij
      rw [div_lt_div_iff_of_pos_right (by norm_num : (0:ℚ) < 100001)]
      have hzi : ((i : ℤ) - 50000 : ℤ) < ((j : ℤ) - 50000 : ℤ) := by omega
      exact_mod_cast hzi

theorem mem_axisVals100001 {x : ℚ} :
    x ∈ axisVals100001 ↔
      ∃ j : ℕ, j < 100001 ∧ foldCoord ktol true ((j : ℚ) / ((100001 : ℕ) : ℚ)) = x := by
  simp only [Nat.cast_ofNat]
  unfold axisVals100001
  simp only [List.mem_cons, List.mem_map, List.mem_range]
  constructor
  · rintro (rfl | ⟨i, hi, rfl⟩)
    · refine ⟨50000, by norm_num, ?_⟩
      rw [show ((50000 : ℕ) : ℚ) = (50000 : ℚ) by norm_num]
      exact foldCoord_100001_snap
    · by_cases hik : 50000 ≤ i
      · refine ⟨i - 50000, by omega, ?_⟩
        rw [foldCoord_100001_low (show i - 50000 ≤ 49999 by omega)]
        congr 1
        rw [Nat.cast_sub hik]
        push_cast
        ring
      · refine ⟨i + 50001, by omega, ?_⟩
        rw [foldCoord_100001_high (by omega) (by omega)]
        congr 1
        push_cast
        ring
  · rintro ⟨j, hj, rfl⟩
    by_cases hj5 : j = 50000
    · subst hj5
      refine Or.inl ?_
      rw [show ((50000 : ℕ) : ℚ) = (50000 : ℚ) by norm_num]
      exact foldCoord_100001_snap
    · by_cases hjlow : j ≤ 49999
      · refine Or.inr ⟨j + 50000, by omega, ?_⟩
        rw [foldCoord_100001_low hjlow]
        rw [show ((((j + 50000 : ℕ) : ℤ) - 50000 : ℤ) : ℚ) = (j : ℚ) by push_cast; ring]
      · refine Or.inr ⟨j - 50001, by omega, ?_⟩
        rw [foldCoord_100001_high (by omega) (by omega)]
        rw [show ((((j - 50001 : ℕ) : ℤ) - 50000 : ℤ) : ℚ) = (j : ℚ) - 100001 by
          rw [show (((j - 50001 : ℕ) : ℤ) - 50000 : ℤ) = (j : ℤ) - 100001 by omega]
          push_cast
          ring]

theorem gaps_cons_cons (a b : ℚ) (t : List ℚ) :
    gaps (a :: b :: t) = (b - a) :: gaps (b :: t) := rfl

theorem forall_gaps_of_chain {P : ℚ → Prop} :
    ∀ {u : List ℚ}, u.Chain' (fun x y => P (y - x)) → ∀ g ∈ gaps u, P g := by
  intro u
  induction u with
  | nil =>
    intro _ g hg
    simp [gaps] at hg
  | cons a l ih =>
    intro hc g hg
    cases l with
    | nil => simp [gaps] at hg
    | cons b t =>
      rw [List.chain'_cons] at hc
      rw [gaps_cons_cons] at hg
      rcases List.mem_cons.mp hg with rfl | hm
      · exact hc.1
      · exact ih hc.2 g hm

theorem chain_axisVals100001 :
    axisVals100001.Chain' (fun x y => y - x ≤ ktol) := by
  unfold axisVals100001
  rw [List.chain'_cons']
  constructor
  · intro b hb
    rw [List.head?_map] at hb
    rw [show (100000 : ℕ) = Nat.succ 99999 from rfl, List.range_succ_eq_map] at hb
    simp only [List.head?_cons, Option.map_some', Option.mem_def, Option.some.injEq] at hb
    rw [← hb]
    norm_num [ktol]
  · rw [List.chain'_map]
    rw [show (100000 : ℕ) = Nat.succ 99999 from rfl]
    rw [List.chain'_range_succ]
    intro m hm
    rw [div_sub_div_same]
    rw [show (((Nat.succ m : ℕ) : ℤ) - 50000 : ℤ) = ((m : ℤ) - 50000) + 1 by omega]
    rw [show ((((m : ℤ) - 50000) + 1 : ℤ) : ℚ) - (((m : ℤ) - 50000 : ℤ) : ℚ) = 1 by
      push_cast
      ring]
    norm_num [ktol]

theorem filter_gaps_axisVals100001 :
    (gaps axisVals100001).filter (fun g => ktol < g) = [] := by
  apply List.filter_eq_nil_iff.mpr
  intro a ha
  have hle : a ≤ ktol :=
    @forall_gaps_of_chain (fun g => g ≤ ktol) axisVals100001 chain_axisVals100001 a ha
  simp only [decide_eq_true_eq]
  exact not_lt.mpr hle

theorem uniqueSorted_axis100001 :
    uniqueSorted ((foldedMesh 100001 1 1).map (fun p => p.1)) = axisVals100001 := by
  apply uniqueSorted_eq_of axisVals100001_sorted
  intro x
  rw [mem_fold_fst (show 0 < 1 by norm_num) (show 0 < 1 by norm_num)]
  exact mem_axisVals100001

theorem mesh_inference_fail_of {l : List Pt} {A : List ℚ}
    (hmin : (l.map normSq).min? = some 0)
    (hua : uniqueSorted (l.map (fun p => p.1)) = A)
    (hlen : ¬ A.length = 1)
    (hfil : (gaps A).filter (fun g => ktol < g) = []) :
    get_mesh_from_kpoint_diff l (1/2000) = none := by
  unfold get_mesh_from_kpoint_diff
  rw [hmin]
  dsimp only
  rw [hua]
  rw [double_ktol_filter]
  rw [if_neg hlen]
  rw [hfil]
  rfl

end Axis100001

end Tetrados

namespace Tetrados

/-- Claim C1 (code bug): the spec demands that get_kpoint_mapping return, for any
two equal-length orderings of the same mesh, a permutation with
candidate[mapping[i]] = reference[i]. The code composes the argsorts the wrong
way round (sort_sort_idx[argsort(indices_true)] instead of using the rank, the
inverse of argsort, as spec section 4.4 step 4 prescribes), so already for the
3 x 1 x 1 mesh [(0,0,0), (1/3,0,0), (-1/3,0,0)] mapped onto itself (candidate =
reference, the identity permutation) the self-check distance exceeds 1e-5 and
the code raises ValueError("Something went wrong with mapping.") instead of
returning the identity mapping. -/
theorem c1_code_eval :
    get_kpoint_mapping [((0:ℚ), (0:ℚ), (0:ℚ)), (1/3, 0, 0), (-(1/3), 0, 0)]
      [((0:ℚ), (0:ℚ), (0:ℚ)), (1/3, 0, 0), (-(1/3), 0, 0)]
      = Except.error ("Something went wrong with mapping.") := by decide

/-- Claim C2 (code bug): the spec demands that get_kpoint_mapping fail with a
LengthMismatch error whenever the two input sets have different point counts.
Line 163 of the source asserts len(kpoints_sort) == len(kpoints_sort), comparing
the candidate length with itself, so the check never fires: with a 1-point
reference and a 2-point candidate the function runs to completion and returns
the mapping [0] instead of raising. -/
theorem c2_code_eval :
    get_kpoint_mapping [((0:ℚ), (0:ℚ), (0:ℚ))]
      [((0:ℚ), (0:ℚ), (0:ℚ)), ((0:ℚ), (0:ℚ), (0:ℚ))] = Except.ok [0] := by decide

/-- Claim C3: for any finite input and any tolerance whose derived decimal
precision is at least 1, kpoints_to_first_bz with the negative boundary
convention yields coordinates in [-1/2, 1/2) and sends a coordinate equal to
1/2 to -1/2; with the positive convention it yields coordinates in (-1/2, 1/2]
and leaves 1/2 fixed; the output has the same point count and the same
positional order as the input (entry i is the fold of entry i), and the
function is total. -/
theorem c3_fold_contract (kps : List Pt) (tol : ℚ) (hdp : 1 ≤ dpOf tol) :
    (∀ p ∈ kpoints_to_first_bz kps tol true,
      (-(1/2) ≤ p.1 ∧ p.1 < 1/2) ∧ (-(1/2) ≤ p.2.1 ∧ p.2.1 < 1/2) ∧
      (-(1/2) ≤ p.2.2 ∧ p.2.2 < 1/2)) ∧
    (∀ p ∈ kpoints_to_first_bz kps tol false,
      (-(1/2) < p.1 ∧ p.1 ≤ 1/2) ∧ (-(1/2) < p.2.1 ∧ p.2.1 ≤ 1/2) ∧
      (-(1/2) < p.2.2 ∧ p.2.2 ≤ 1/2)) ∧
    foldCoord tol true (1/2) = -(1/2) ∧
    foldCoord tol false (1/2) = 1/2 ∧
    (∀ nzb : Bool, (kpoints_to_first_bz kps tol nzb).length = kps.length) ∧
    (∀ (nzb : Bool) (i : ℕ),
      (kpoints_to_first_bz kps tol nzb)[i]? = (kps[i]?).map (foldPt tol nzb)) := by
  refine ⟨?_, ?_, foldCoord_true_half hdp, foldCoord_false_half hdp, ?_, ?_⟩
  · intro p hp
    obtain ⟨q, hq, rfl⟩ := List.mem_map.mp hp
    exact ⟨foldCoord_true_mem hdp q.1, foldCoord_true_mem hdp q.2.1,
      foldCoord_true_mem hdp q.2.2⟩
  · intro p hp
    obtain ⟨q, hq, rfl⟩ := List.mem_map.mp hp
    exact ⟨foldCoord_false_mem hdp q.1, foldCoord_false_mem hdp q.2.1,
      foldCoord_false_mem hdp q.2.2⟩
  · intro nzb
    exact List.length_map kps _
  · intro nzb i
    exact List.getElem?_map _ kps i

/-- Witness for c3_fold_contract at a concrete input. -/
theorem c3_fold_contract_witness :
    1 ≤ dpOf ktol ∧
    ((∀ p ∈ kpoints_to_first_bz [((1:ℚ)/2, (0:ℚ), (1:ℚ)/4)] ktol true,
      (-(1/2) ≤ p.1 ∧ p.1 < 1/2) ∧ (-(1/2) ≤ p.2.1 ∧ p.2.1 < 1/2) ∧
      (-(1/2) ≤ p.2.2 ∧ p.2.2 < 1/2)) ∧
    (∀ p ∈ kpoints_to_first_bz [((1:ℚ)/2, (0:ℚ), (1:ℚ)/4)] ktol false,
      (-(1/2) < p.1 ∧ p.1 ≤ 1/2) ∧ (-(1/2) < p.2.1 ∧ p.2.1 ≤ 1/2) ∧
      (-(1/2) < p.2.2 ∧ p.2.2 ≤ 1/2)) ∧
    foldCoord ktol true (1/2) = -(1/2) ∧
    foldCoord ktol false (1/2) = 1/2 ∧
    (∀ nzb : Bool, (kpoints_to_first_bz [((1:ℚ)/2, (0:ℚ), (1:ℚ)/4)] ktol nzb).length
        = [((1:ℚ)/2, (0:ℚ), (1:ℚ)/4)].length) ∧
    (∀ (nzb : Bool) (i : ℕ),
      (kpoints_to_first_bz [((1:ℚ)/2, (0:ℚ), (1:ℚ)/4)] ktol nzb)[i]? =
        ([((1:ℚ)/2, (0:ℚ), (1:ℚ)/4)][i]?).map (foldPt ktol nzb))) :=
  ⟨by decide, c3_fold_contract [((1:ℚ)/2, (0:ℚ), (1:ℚ)/4)] ktol (by decide)⟩

end Tetrados

namespace Tetrados

/-- Claim C4, amended: for every integer mesh (n1, n2, n3) with every dimension
at most 100000, get_kpoint_indices on the folded synthetic mesh returns
n1 * n2 * n3 pairwise distinct linear indices; in particular for the 2 x 2 x 2
unshifted mesh of the spec's concrete scenario, folded to the -1/2 boundary,
the 8 indices are exactly 0..7. (The bound is forced by the counterexample
c4_counterexample: at 100001 x 1 x 1 two folded grid points collide.) -/
theorem c4_indexer_injectivity (n1 n2 n3 : ℕ) (h1 : 0 < n1) (h2 : 0 < n2) (h3 : 0 < n3)
    (b1 : n1 ≤ 100000) (b2 : n2 ≤ 100000) (b3 : n3 ≤ 100000) :
    (get_kpoint_indices (foldedMesh n1 n2 n3) ((n1:ℤ), (n2:ℤ), (n3:ℤ)) false).Nodup ∧
    (get_kpoint_indices (foldedMesh n1 n2 n3) ((n1:ℤ), (n2:ℤ), (n3:ℤ)) false).length
      = n1 * n2 * n3 ∧
    List.Perm
      (get_kpoint_indices (kpoints_to_first_bz
        [((0:ℚ), (0:ℚ), (0:ℚ)), (1/2, 0, 0), (0, 1/2, 0), (0, 0, 1/2),
         (1/2, 1/2, 0), (1/2, 0, 1/2), (0, 1/2, 1/2), (1/2, 1/2, 1/2)] ktol true)
        ((2:ℤ), (2:ℤ), (2:ℤ)) false)
      [0, 1, 2, 3, 4, 5, 6, 7] :=
  ⟨indices_nodup n1 n2 n3 h1 h2 h3 b1 b2 b3, indices_length n1 n2 n3, by decide⟩

/-- Witness for c4_indexer_injectivity at the 2 x 2 x 2 mesh. -/
theorem c4_indexer_injectivity_witness :
    (0 < 2 ∧ 2 ≤ 100000) ∧
    ((get_kpoint_indices (foldedMesh 2 2 2) (((2:ℕ):ℤ), ((2:ℕ):ℤ), ((2:ℕ):ℤ)) false).Nodup ∧
    (get_kpoint_indices (foldedMesh 2 2 2) (((2:ℕ):ℤ), ((2:ℕ):ℤ), ((2:ℕ):ℤ)) false).length
      = 2 * 2 * 2 ∧
    List.Perm
      (get_kpoint_indices (kpoints_to_first_bz
        [((0:ℚ), (0:ℚ), (0:ℚ)), (1/2, 0, 0), (0, 1/2, 0), (0, 0, 1/2),
         (1/2, 1/2, 0), (1/2, 0, 1/2), (0, 1/2, 1/2), (1/2, 1/2, 1/2)] ktol true)
        ((2:ℤ), (2:ℤ), (2:ℤ)) false)
      [0, 1, 2, 3, 4, 5, 6, 7]) :=
  ⟨⟨by decide, by decide⟩,
    c4_indexer_injectivity 2 2 2 (by decide) (by decide) (by decide)
      (by decide) (by decide) (by decide)⟩

/-- Counterexample to claim C4 as frozen: for the 100001 x 1 x 1 mesh the folded
grid coordinates 50000/100001 and 50001/100001 both receive grid address
-50000 (the first is snapped to -1/2 by the 5-decimal boundary rounding and
np.round(-50000.5) = -50000 by half-to-even, the second rounds directly to
-50000), so the returned linear indices are not pairwise distinct. -/
theorem c4_counterexample :
    ¬ (get_kpoint_indices (foldedMesh 100001 1 1)
        (((100001:ℕ):ℤ), (1:ℤ), (1:ℤ)) false).Nodup := by
  intro hnd
  rw [indices_n11_form 100001] at hnd
  refine map_range_not_nodup 100001 50000 50001 _ (by norm_num) (by norm_num)
    (by norm_num) ?_ hnd
  simp only [Function.comp_apply]
  exact collision_100001

end Tetrados

namespace Tetrados

/-- Claim C5: whenever the meshes inferred from the two folded input sets round
to different integer triples, get_kpoint_mapping stops with the descriptive
error "k-points have different mesh dimensions" (the ShapeMismatch assertion of
kpoints.py lines 171-173) and produces no mapping. -/
theorem c5_shape_mismatch {kt ks : List Pt} {mt ms : (ℚ × ℚ × ℚ) × Bool}
    (ht : get_mesh_from_kpoint_diff (kpoints_to_first_bz kt ktol true) (1/2000) = some mt)
    (hs : get_mesh_from_kpoint_diff (kpoints_to_first_bz ks ktol true) (1/2000) = some ms)
    (hne : roundMesh mt.1 ≠ roundMesh ms.1) :
    get_kpoint_mapping kt ks = Except.error ("k-points have different mesh dimensions") :=
  mapping_shape_mismatch ht hs hne

/-- Witness for c5_shape_mismatch: a 2-point 2 x 1 x 1 set against a 3-point
3 x 1 x 1 set. -/
theorem c5_shape_mismatch_witness :
    (get_mesh_from_kpoint_diff (kpoints_to_first_bz
        [((0:ℚ), (0:ℚ), (0:ℚ)), (-(1/2), 0, 0)] ktol true) (1/2000)
      = some ((((2:ℚ), (1:ℚ), (1:ℚ)), false)) ∧
    get_mesh_from_kpoint_diff (kpoints_to_first_bz
        [((0:ℚ), (0:ℚ), (0:ℚ)), (1/3, 0, 0), (-(1/3), 0, 0)] ktol true) (1/2000)
      = some ((((3:ℚ), (1:ℚ), (1:ℚ)), false)) ∧
    roundMesh (((2:ℚ), (1:ℚ), (1:ℚ)), false).1 ≠ roundMesh (((3:ℚ), (1:ℚ), (1:ℚ)), false).1) ∧
    get_kpoint_mapping [((0:ℚ), (0:ℚ), (0:ℚ)), (-(1/2), 0, 0)]
      [((0:ℚ), (0:ℚ), (0:ℚ)), (1/3, 0, 0), (-(1/3), 0, 0)]
      = Except.error ("k-points have different mesh dimensions") := by
  have ht : get_mesh_from_kpoint_diff (kpoints_to_first_bz
      [((0:ℚ), (0:ℚ), (0:ℚ)), (-(1/2), 0, 0)] ktol true) (1/2000)
      = some ((((2:ℚ), (1:ℚ), (1:ℚ)), false)) := by decide
  have hs : get_mesh_from_kpoint_diff (kpoints_to_first_bz
      [((0:ℚ), (0:ℚ), (0:ℚ)), (1/3, 0, 0), (-(1/3), 0, 0)] ktol true) (1/2000)
      = some ((((3:ℚ), (1:ℚ), (1:ℚ)), false)) := by decide
  have hne : roundMesh (((2:ℚ), (1:ℚ), (1:ℚ)), false).1
      ≠ roundMesh (((3:ℚ), (1:ℚ), (1:ℚ)), false).1 := by decide
  exact ⟨⟨ht, hs, hne⟩, c5_shape_mismatch ht hs hne⟩

/-- Claim C6: given a grid_mapping of length na * nb * nc from the external
symmetry finder whose entries are valid full-grid indices, the weights computed
by get_kpoints_tetrahedral sum exactly to na * nb * nc, the inverse index
ir_to_full_idx assigns every full-grid position exactly one irreducible class
(it has one entry per full-grid point), and each of its entries is a valid
index into ir_kpoints. -/
theorem c6_weight_conservation (kpoint_mesh : ℕ × ℕ × ℕ) (grid_mapping : List ℕ)
    (grid_address : List (ℤ × ℤ × ℤ))
    (hlen : grid_mapping.length = kpoint_mesh.1 * kpoint_mesh.2.1 * kpoint_mesh.2.2)
    (hdom : ∀ g ∈ grid_mapping, g < grid_address.length) :
    ∃ ir_kpoints weights full_kpoints ir_kpoints_idx ir_to_full_idx,
      get_kpoints_tetrahedral kpoint_mesh grid_mapping grid_address =
        some (ir_kpoints, weights, full_kpoints, ir_kpoints_idx, ir_to_full_idx) ∧
      weights.sum = kpoint_mesh.1 * kpoint_mesh.2.1 * kpoint_mesh.2.2 ∧
      ir_to_full_idx.length = kpoint_mesh.1 * kpoint_mesh.2.1 * kpoint_mesh.2.2 ∧
      (∀ e ∈ ir_to_full_idx, e < ir_kpoints.length) := by
  have heq : get_kpoints_tetrahedral kpoint_mesh grid_mapping grid_address =
      some ((uniqueSorted grid_mapping).map (fun i => (grid_address.map (fun g =>
              (((g.1 : ℚ) / (kpoint_mesh.1 : ℚ), (g.2.1 : ℚ) / (kpoint_mesh.2.1 : ℚ),
                (g.2.2 : ℚ) / (kpoint_mesh.2.2 : ℚ)) : Pt))).getD i (0, 0, 0)),
            (uniqueSorted grid_mapping).map (fun v => grid_mapping.count v),
            grid_address.map (fun g =>
              (((g.1 : ℚ) / (kpoint_mesh.1 : ℚ), (g.2.1 : ℚ) / (kpoint_mesh.2.1 : ℚ),
                (g.2.2 : ℚ) / (kpoint_mesh.2.2 : ℚ)) : Pt)),
            uniqueSorted grid_mapping,
            grid_mapping.map (fun x => (uniqueSorted grid_mapping).indexOf x)) := by
    unfold get_kpoints_tetrahedral
    rw [if_pos]
    apply List.all_eq_true.mpr
    intro i hi
    apply decide_eq_true
    rw [List.length_map]
    exact hdom i (mem_uniqueSorted.mp hi)
  refine ⟨_, _, _, _, _, heq, ?_, ?_, ?_⟩
  · exact (sum_map_count (uniqueSorted_nodup grid_mapping)
      (fun x => mem_uniqueSorted)).trans hlen
  · rw [List.length_map]
    exact hlen
  · intro e he
    obtain ⟨x, hx, rfl⟩ := List.mem_map.mp he
    rw [List.length_map]
    rw [List.indexOf_lt_length]
    exact mem_uniqueSorted.mpr hx

/-- Witness for c6_weight_conservation on a 2 x 1 x 1 mesh with both grid
points mapped to representative 0. -/
theorem c6_weight_conservation_witness :
    ([0, 0].length = (2, 1, 1).1 * (2, 1, 1).2.1 * (2, 1, 1).2.2 ∧
     ∀ g ∈ [0, 0], g < [((0:ℤ), (0:ℤ), (0:ℤ)), (1, 0, 0)].length) ∧
    (∃ ir_kpoints weights full_kpoints ir_kpoints_idx ir_to_full_idx,
      get_kpoints_tetrahedral (2, 1, 1) [0, 0] [((0:ℤ), (0:ℤ), (0:ℤ)), (1, 0, 0)] =
        some (ir_kpoints, weights, full_kpoints, ir_kpoints_idx, ir_to_full_idx) ∧
      weights.sum = (2, 1, 1).1 * (2, 1, 1).2.1 * (2, 1, 1).2.2 ∧
      ir_to_full_idx.length = (2, 1, 1).1 * (2, 1, 1).2.1 * (2, 1, 1).2.2 ∧
      (∀ e ∈ ir_to_full_idx, e < ir_kpoints.length)) :=
  ⟨⟨by decide, by decide⟩,
    c6_weight_conservation (2, 1, 1) [0, 0] [((0:ℤ), (0:ℤ), (0:ℤ)), (1, 0, 0)]
      (by decide) (by decide)⟩

end Tetrados

namespace Tetrados

/-- Claim C7, amended: for every uniform rectilinear mesh with known dimensions
(n1, n2, n3) whose axis spacings strictly exceed the gap tolerance
(1/n > ktol, i.e. n at most 99999), unshifted and containing the origin, and
any reordering of its folded points, get_mesh_from_kpoint_diff recovers
exactly ((n1, n2, n3), shifted = false), whatever tolerance argument is
passed; and in any call that returns, the shift flag is true if and only if
no sampled point lies within 1e-6 of the origin (squared norm above 1e-12).
(Once the spacing falls strictly below ktol the function fails instead of
returning: counterexample c7_counterexample, at 100001 x 1 x 1. The exact tie
1/n = ktol, n = 100000, sits on the strict filter's boundary, where the
comparison is decided by the representation error of the computed gaps rather
than by the mesh geometry, so it is outside the amended guarantee.) -/
theorem c7_mesh_roundtrip (n1 n2 n3 : ℕ) (h1 : 0 < n1) (h2 : 0 < n2) (h3 : 0 < n3)
    (u1 : n1 ≤ 99999) (u2 : n2 ≤ 99999) (u3 : n3 ≤ 99999)
    (l : List Pt) (hl : List.Perm l (foldedMesh n1 n2 n3)) (tol : ℚ) :
    get_mesh_from_kpoint_diff l tol = some (((n1:ℚ), (n2:ℚ), (n3:ℚ)), false) ∧
    (∀ (kps : List Pt) (t : ℚ) (md : ℚ × ℚ × ℚ) (b : Bool),
      get_mesh_from_kpoint_diff kps t = some (md, b) →
      (b = true ↔ ∀ p ∈ kps, (1:ℚ)/10^12 < normSq p)) :=
  ⟨mesh_inference_perm n1 n2 n3 h1 h2 h3 u1 u2 u3 hl tol,
   fun _ _ _ _ h => shift_flag_iff h⟩

/-- Witness for c7_mesh_roundtrip: the reversed folded 2 x 1 x 3 mesh. -/
theorem c7_mesh_roundtrip_witness :
    (0 < 2 ∧ 0 < 1 ∧ 0 < 3 ∧ 2 ≤ 99999 ∧ List.Perm (foldedMesh 2 1 3).reverse (foldedMesh 2 1 3)) ∧
    (get_mesh_from_kpoint_diff (foldedMesh 2 1 3).reverse (1/2000)
        = some ((((2:ℕ):ℚ), ((1:ℕ):ℚ), ((3:ℕ):ℚ)), false) ∧
    (∀ (kps : List Pt) (t : ℚ) (md : ℚ × ℚ × ℚ) (b : Bool),
      get_mesh_from_kpoint_diff kps t = some (md, b) →
      (b = true ↔ ∀ p ∈ kps, (1:ℚ)/10^12 < normSq p))) :=
  ⟨⟨by decide, by decide, by decide, by decide, List.reverse_perm _⟩,
    c7_mesh_roundtrip 2 1 3 (by decide) (by decide) (by decide)
      (by decide) (by decide) (by decide) (foldedMesh 2 1 3).reverse
      (List.reverse_perm _) (1/2000)⟩

/-- Counterexample to claim C7 as frozen: on the uniform unshifted
100001 x 1 x 1 mesh every consecutive gap of the distinct sorted first-axis
values falls strictly below ktol (1/100001 between grid values, and 1/200002
between the boundary value -1/2, onto which 50000/100001 is snapped, and its
neighbour -50000/100001), so the strict filter diff > ktol discards every gap
and np.min of the empty selection raises: get_mesh_from_kpoint_diff fails
instead of returning axis counts rounding to (100001, 1, 1). -/
theorem c7_counterexample :
    get_mesh_from_kpoint_diff (foldedMesh 100001 1 1) (1/2000) = none :=
  mesh_inference_fail_of
    (min?_normSq_perm_foldedMesh (show 0 < 100001 by norm_num)
      (show 0 < 1 by norm_num) (show 0 < 1 by norm_num)
      (List.Perm.refl (foldedMesh 100001 1 1)))
    uniqueSorted_axis100001
    (show ¬ axisVals100001.length = 1 from by rw [length_axisVals100001]; norm_num)
    filter_gaps_axisVals100001

/-- Claim C8: folding is idempotent (refolding a folded set, with the same
tolerance and boundary convention, returns it unchanged) and sorting is
idempotent and deterministic (sorting a sorted set returns the same order). -/
theorem c8_idempotence :
    (∀ (kps : List Pt) (tol : ℚ) (nzb : Bool),
      kpoints_to_first_bz (kpoints_to_first_bz kps tol nzb) tol nzb =
        kpoints_to_first_bz kps tol nzb) ∧
    (∀ kps : List Pt, sort_kpoints (sort_kpoints kps) = sort_kpoints kps) := by
  constructor
  · intro kps tol nzb
    unfold kpoints_to_first_bz
    rw [List.map_map]
    apply List.map_congr_left
    intro p _
    exact foldPt_idem tol nzb p
  · intro kps
    unfold sort_kpoints
    exact List.Sorted.insertionSort_eq (List.sorted_insertionSort sortRel kps)

/-- Claim C9: get_mesh_from_kpoint_diff ignores its tol parameter entirely: the
gap filters use the module constant ktol and the origin test uses the hard
coded 1e-6, so any two tolerance arguments give identical results. -/
theorem c9_tol_unused (kpoints : List Pt) (t1 t2 : ℚ) :
    get_mesh_from_kpoint_diff kpoints t1 = get_mesh_from_kpoint_diff kpoints t2 := rfl

/-- Claim C10: kpoints_to_first_bz does not quantize coordinates: whenever the
wrapped value k - round(k) does not round, at the derived decimal precision, to
the disallowed boundary sign, the output coordinate is exactly k - round(k);
the decimal rounding only detects boundary points. -/
theorem c10_no_quantization (tol : ℚ) (nzb : Bool) (k : ℚ)
    (h : roundDp (dpOf tol) (k - (rnd k : ℚ)) ≠ (if nzb then (1/2 : ℚ) else -(1/2))) :
    foldCoord tol nzb k = k - (rnd k : ℚ) := by
  cases nzb
  · have hk : roundDp (dpOf tol) (k - (rnd k : ℚ)) ≠ -(1/2) := by simpa using h
    rw [foldCoord_false_def, if_neg hk]
  · have hk : roundDp (dpOf tol) (k - (rnd k : ℚ)) ≠ 1/2 := by simpa using h
    rw [foldCoord_true_def, if_neg hk]

/-- Witness for c10_no_quantization at k = 1/3 under the negative convention. -/
theorem c10_no_quantization_witness :
    (roundDp (dpOf ktol) ((1:ℚ)/3 - (rnd ((1:ℚ)/3) : ℚ)) ≠ (if true then (1/2 : ℚ) else -(1/2))) ∧
    foldCoord ktol true ((1:ℚ)/3) = (1:ℚ)/3 - (rnd ((1:ℚ)/3) : ℚ) :=
  ⟨by decide, c10_no_quantization ktol true ((1:ℚ)/3) (by decide)⟩

end Tetrados
